import Mathlib

/-!
A verification development for the `git_hosts` Ansible inventory plugin
(`inventory_plugins/git_hosts.py`).  The Python code is shallowly embedded:

* Strings are Lean `String`s, manipulated through their underlying `List Char`
  with ASCII-faithful models of Python's `str.strip`, `str.lower`, `str.upper`,
  `str.split`, `str.split("=", 1)` and substring containment.
* The mutable `inventory_data` dict is an `InvState` record: `hostvars` and the
  per-group host lists are insertion-ordered association lists, exactly like
  Python dicts; `allChildren` is `inventory_data["all"]["children"]`.
* The filesystem and the DNS resolver are an oracle record `World`.
* Calls to the global `display` object are write-only in the source, so each
  embedded function returns the list of diagnostics it emits as an explicit
  second component instead of threading a display object.
* `inventory_data[group]["hosts"]` raises `KeyError` when the group cursor is
  the literal `"_meta"` or `"all"` key (those sub-dicts have no `"hosts"`
  entry); this is modelled by an `Except.error` that aborts the walk, matching
  the `try/except` in `parse` that converts any such exception into a fatal
  `AnsibleError`.
* Ghost fields (`accesses`, `parserCalls`, `fallbackRuns`, `dnsCalls`,
  `totalFiles`) record which paths are handed to the filesystem, the arguments
  of each per-file parser invocation, how often the group-name fallback
  environment detection executes, and which hostnames are sent to the DNS
  resolver.  They are write-only instrumentation and do not influence control
  flow.
-/

namespace GitHosts

/-! ## Character-level models of Python string primitives (ASCII fragment) -/

def isSpaceC (c : Char) : Bool :=
  c.toNat = 32 || c.toNat = 9 || c.toNat = 10 || c.toNat = 13 || c.toNat = 11 || c.toNat = 12

def isLowerC (c : Char) : Bool := 97 ≤ c.toNat && c.toNat ≤ 122

def isUpperC (c : Char) : Bool := 65 ≤ c.toNat && c.toNat ≤ 90

def isAlphaC (c : Char) : Bool := isLowerC c || isUpperC c

def isVowelC (c : Char) : Bool :=
  c.toNat = 97 || c.toNat = 101 || c.toNat = 105 || c.toNat = 111 || c.toNat = 117

def toUpC (c : Char) : Char := if isLowerC c then Char.ofNat (c.toNat - 32) else c

def toLowC (c : Char) : Char := if isUpperC c then Char.ofNat (c.toNat + 32) else c

def upList (l : List Char) : List Char := l.map toUpC

def lowList (l : List Char) : List Char := l.map toLowC

/-- Python `str.strip()` (whitespace from both ends). -/
def stripList (l : List Char) : List Char :=
  ((l.dropWhile isSpaceC).reverse.dropWhile isSpaceC).reverse

/-- Python `str.rstrip('-_')`. -/
def rstripDU (l : List Char) : List Char :=
  (l.reverse.dropWhile (fun c => c = '-' || c = '_')).reverse

def containsC (c : Char) : List Char → Bool
  | [] => false
  | d :: ds => d = c || containsC c ds

def startsL : List Char → List Char → Bool
  | [], _ => true
  | _ :: _, [] => false
  | a :: as, b :: bs => a = b && startsL as bs

/-- Python `str.endswith(suffix)`. -/
def endsL (suf l : List Char) : Bool := startsL suf.reverse l.reverse

/-- Python `needle in hay` substring containment. -/
def hasSub : List Char → List Char → Bool
  | n, [] => n.isEmpty
  | n, c :: cs => startsL n (c :: cs) || hasSub n cs

/-- Python `str.index(c)` for a character known to occur (0 on absence). -/
def idxOf (c : Char) : List Char → Nat
  | [] => 0
  | d :: ds => if d = c then 0 else idxOf c ds + 1

/-- Python slice `l[a:b]` (empty when `b ≤ a`). -/
def sliceLC (l : List Char) (a b : Nat) : List Char := (l.drop a).take (b - a)

/-- Python `str.split()` (split on whitespace runs, no empty tokens). -/
def splitWSGo : List Char → List Char → List (List Char)
  | [], acc => if acc.isEmpty then [] else [acc.reverse]
  | c :: cs, acc =>
    if isSpaceC c then
      if acc.isEmpty then splitWSGo cs [] else acc.reverse :: splitWSGo cs []
    else splitWSGo cs (c :: acc)

def splitWS (l : List Char) : List (List Char) := splitWSGo l []

/-- Python `str.split(sep)` keeping empty segments. -/
def splitOnC (sep : Char) : List Char → List (List Char)
  | [] => [[]]
  | c :: cs =>
    if c = sep then [] :: splitOnC sep cs
    else
      match splitOnC sep cs with
      | [] => [[c]]
      | t :: ts => (c :: t) :: ts

/-- Python `str.split("=", 1)` for a string containing `=`. -/
def splitEqGo : List Char → List Char → List Char × List Char
  | [], acc => (acc.reverse, [])
  | c :: cs, acc => if c = '=' then (acc.reverse, cs) else splitEqGo cs (c :: acc)

def splitEq1 (l : List Char) : List Char × List Char := splitEqGo l []

/-! ## Insertion-ordered association lists (Python dict model) -/

def alook (k : String) : List (String × α) → Option α
  | [] => none
  | (k', v) :: rest => if k' = k then some v else alook k rest

/-- Update the value at an existing key in place (no-op when absent). -/
def aupd (k : String) (f : α → α) : List (String × α) → List (String × α)
  | [] => []
  | (k', v) :: rest => if k' = k then (k', f v) :: rest else (k', v) :: aupd k f rest

/-- Python `d[k] = v`: overwrite in place, or append a fresh key. -/
def setKV (k v : String) (l : List (String × String)) : List (String × String) :=
  if (alook k l).isSome then aupd k (fun _ => v) l else l ++ [(k, v)]

/-! ## Data model -/

/-- Diagnostics emitted through the `display` singleton, one constructor per
call site; warnings and verbose messages are distinguished by constructor. -/
inductive Diag where
  | dnsUnavailable : Diag
  | unsafeEnvDir : String → Diag
  | envDirMissing : String → Diag
  | envPathNotDir : String → Diag
  | processingDir : String → Diag
  | foundFiles : String → Nat → Diag
  | noFilesInDir : String → Diag
  | noFilesAtAll : Diag
  | processedTotal : Nat → Diag
  | processingFile : String → Diag
  | couldNotRead : String → Diag
  | emptyGroupName : String → Diag
  | duplicateHost : String → Diag
  | setEnvNote : String → String → Diag
  | dnsFailed : String → Diag
deriving DecidableEq, Repr

/-- The plugin configuration options read in `parse`. -/
structure Config where
  hosts_directory : String
  environment_dirs : List String
  hosts_file_patterns : List String
  environment_mapping : List (String × String)
  auto_environment_patterns : Bool
  dns_resolution : Bool
  environment_detection : Bool
  check_interval : Nat
deriving Repr

/-- Outcome of `dns.resolver.resolve(hostname, "CNAME")`: an answer list,
the expected `NoAnswer`/`NXDOMAIN` pair, or any other exception. -/
inductive DnsRes where
  | success : List String → DnsRes
  | noRecord : DnsRes
  | otherError : DnsRes
deriving DecidableEq, Repr

/-- The external world: filesystem queries and the DNS resolver. -/
structure World where
  pathExists : String → Bool
  pathIsDir : String → Bool
  pathIsFile : String → Bool
  globFiles : String → List String
  fileLines : String → Option (List String)
  hasDns : Bool
  dnsAnswer : String → DnsRes

/-- The `inventory_data` dict plus write-only instrumentation. -/
structure InvState where
  hostvars : List (String × List (String × String))
  groups : List (String × List String)
  allChildren : List String
  totalFiles : Nat
  accesses : List String
  parserCalls : List (String × Option String)
  fallbackRuns : Nat
  dnsCalls : List String
deriving DecidableEq, Repr

def initState : InvState :=
  { hostvars := [], groups := [], allChildren := ["ungrouped"], totalFiles := 0,
    accesses := [], parserCalls := [], fallbackRuns := 0, dnsCalls := [] }

/-! ## Environment code resolution (`_generate_environment_code`) -/

def builtInMapping : List (String × String) :=
  [("prod", "PRD"), ("production", "PRD"), ("prd", "PRD"),
   ("acc", "ACC"), ("acceptance", "ACC"),
   ("tst", "TST"), ("test", "TST"), ("testing", "TST"),
   ("qas", "QAS"), ("quality", "QAS"), ("qa", "QAS"),
   ("dev", "DEV"), ("development", "DEV"),
   ("staging", "STG"), ("stg", "STG")]

/-- One iteration of the suffix-stripping loop in
`_auto_generate_environment_code`: `none` means fall through to the next
suffix (also when the remaining base is shorter than 2). -/
def suffixStep (clean suf : List Char) : Option (List Char) :=
  if endsL suf clean then
    let base := rstripDU (clean.take (clean.length - suf.length))
    if 2 ≤ base.length then some (upList base) else none
  else none

/-- First characters of the hyphen-separated parts that are alphabetic
(`''.join(part[0] for part in parts if part and part[0].isalpha())`). -/
def firstAlphas : List (List Char) → List Char
  | [] => []
  | [] :: ps => firstAlphas ps
  | (c :: _) :: ps => if isAlphaC c then c :: firstAlphas ps else firstAlphas ps

/-- The hyphen/underscore abbreviation attempt of
`_auto_generate_environment_code` (first letter of each part). -/
def hyphenStep (clean : List Char) : Option (List Char) :=
  if containsC '-' clean || containsC '_' clean then
    let parts := splitOnC '-' (clean.map fun c => if c = '_' then '-' else c)
    if 1 < parts.length then
      let ab := firstAlphas parts
      if 2 ≤ ab.length then some (upList ab) else none
    else none
  else none

/-- The capital-letter extraction attempt of `_auto_generate_environment_code`
(applied to the original, pre-lower-cased name). -/
def capsStep (env_dir : String) : Option (List Char) :=
  if env_dir.data.any (fun c => isUpperC c) then
    let capitals := env_dir.data.filter (fun c => isUpperC c)
    if 2 ≤ capitals.length then some capitals else none
  else none

/-- The consonant abbreviation and first-3-characters fallback of
`_auto_generate_environment_code`. -/
def consonantsStep (clean : List Char) : List Char :=
  let consonants := clean.filter (fun c => !(isVowelC c) && isAlphaC c)
  if 3 ≤ consonants.length then upList (consonants.take 3)
  else if consonants.length = 2 then upList consonants
  else upList (clean.take 3)

/-- `_auto_generate_environment_code`. -/
def autoGenerateEnvironmentCode (env_dir : String) : String :=
  let clean := stripList (lowList env_dir.data)
  if clean.length ≤ 3 then ⟨upList clean⟩
  else
    match suffixStep clean "environment".data with
    | some r => ⟨r⟩
    | none =>
    match suffixStep clean "ment".data with
    | some r => ⟨r⟩
    | none =>
    match suffixStep clean "env".data with
    | some r => ⟨r⟩
    | none =>
    if 3 < clean.length then
      match hyphenStep clean with
      | some r => ⟨r⟩
      | none =>
        match capsStep env_dir with
        | some r => ⟨r⟩
        | none => ⟨consonantsStep clean⟩
    else ⟨upList env_dir.data⟩

/-- `_generate_environment_code`; the argument is `Option String` because the
Python parameter may be `None`, and `if not env_dir` treats `None` and the
empty string alike. -/
def generateEnvironmentCode (cfg : Config) (env_dir : Option String) : String :=
  if env_dir = none ∨ env_dir = some "" then "MISC"
  else
    let s := env_dir.getD ""
    let lower : String := ⟨lowList s.data⟩
    if cfg.environment_mapping ≠ [] ∧ (alook lower cfg.environment_mapping).isSome then
      (alook lower cfg.environment_mapping).getD ""
    else if (alook lower builtInMapping).isSome then
      (alook lower builtInMapping).getD ""
    else if cfg.auto_environment_patterns then autoGenerateEnvironmentCode s
    else ⟨upList s.data⟩

/-! ## Per-host annotation steps -/

/-- `_set_environment_from_directory`. -/
def setEnvironmentFromDirectory (cfg : Config) (hostname env_dir : String)
    (st : InvState) : InvState × List Diag :=
  if hostname = "" ∨ env_dir = "" then (st, [])
  else
    let environment := generateEnvironmentCode cfg (some env_dir)
    ({st with hostvars := aupd hostname (setKV "environment" environment) st.hostvars},
     [Diag.setEnvNote hostname environment])

/-- `_resolve_dns`: best-effort CNAME lookup; only the first answer is
recorded, `NoAnswer`/`NXDOMAIN` are silent, anything else is a verbose note. -/
def resolveDns (w : World) (hostname : String) (st : InvState) : InvState × List Diag :=
  let st := {st with dnsCalls := st.dnsCalls ++ [hostname]}
  match w.dnsAnswer hostname with
  | DnsRes.success [] => (st, [])
  | DnsRes.success (c :: _) =>
    ({st with hostvars := aupd hostname (setKV "DNSName" c) st.hostvars}, [])
  | DnsRes.noRecord => (st, [])
  | DnsRes.otherError => (st, [Diag.dnsFailed hostname])

/-- `_detect_environment`: group-name fallback, skipped when `environment`
is already present for the host. -/
def detectEnvironment (hostname group : String) (st : InvState) : InvState :=
  if hostname = "" ∨ group = "" then st
  else
    match alook hostname st.hostvars with
    | none => st
    | some hv =>
      if (alook "environment" hv).isSome then st
      else
        let environment :=
          if hasSub "_PRD".data group.data then "PRD"
          else if hasSub "_ACC".data group.data then "ACC"
          else if hasSub "_QAS".data group.data then "QAS"
          else if hasSub "_TST".data group.data then "TST"
          else "MISC"
        {st with hostvars := aupd hostname (setKV "environment" environment) st.hostvars}

/-- Python truthiness of the `environment` argument (a `str` or `None`). -/
def envTruthy : Option String → Bool
  | some e => !(e == "")
  | none => false

/-- Ghost instrumentation: count one execution of the group-name fallback. -/
def bumpFallback (st : InvState) : InvState :=
  {st with fallbackRuns := st.fallbackRuns + 1}

/-- The three annotation blocks at the end of the host-line branch of
`_process_single_host_file` (directory tagging, DNS, group-name fallback).
The `fallbackRuns` ghost counter records each invocation of the fallback. -/
def tagAndDns (cfg : Config) (w : World) (env : Option String) (st : InvState)
    (group host : String) : InvState × List Diag :=
  let a :=
    if host ≠ "" ∧ envTruthy env = true ∧ cfg.environment_detection = true then
      setEnvironmentFromDirectory cfg host (env.getD "") st
    else (st, [])
  let b :=
    if host ≠ "" ∧ cfg.dns_resolution = true then resolveDns w host a.1 else (a.1, [])
  let c :=
    if host ≠ "" ∧ group ≠ "" ∧ cfg.environment_detection = true ∧ env = none then
      (detectEnvironment host group (bumpFallback b.1), ([] : List Diag))
    else (b.1, [])
  (c.1, a.2 ++ b.2 ++ c.2)

/-! ## Per-line and per-file parsing (`_process_single_host_file`) -/

/-- The variable-token loop (`i >= 1`): `key=value` tokens update the host's
variables, tokens without `=` are ignored. -/
def applyVars (t0 : String) : List (List Char) → InvState → InvState
  | [], st => st
  | item :: rest, st =>
    applyVars t0 rest
      (if containsC '=' item then
        let kv := splitEq1 item
        {st with hostvars := aupd t0 (setKV ⟨kv.1⟩ ⟨kv.2⟩) st.hostvars}
      else st)

/-- Process one line of a hosts file.  Returns the new state, the new group
cursor and host cursor, and the emitted diagnostics; `Except.error` models the
`KeyError` raised by `inventory_data[group]["hosts"]` when the group cursor is
`"all"` or `"_meta"`. -/
def processEntry (cfg : Config) (w : World) (env : Option String) (fname : String)
    (st : InvState) (group host : String) (rawEntry : String) :
    Except String ((InvState × String × String) × List Diag) :=
  let entry := stripList rawEntry.data
  if entry.isEmpty then .ok ((st, group, host), [])
  else if entry.head? = some '#' then .ok ((st, group, host), [])
  else if containsC '[' entry && containsC ']' entry then
    -- the group cursor is assigned before the empty-name check, as in the source
    let g : String := ⟨sliceLC entry (idxOf '[' entry + 1) (idxOf ']' entry)⟩
    if g = "" then .ok ((st, g, host), [Diag.emptyGroupName fname])
    else if g ∈ st.allChildren then .ok ((st, g, host), [])
    else .ok (({st with allChildren := st.allChildren ++ [g]}, g, host), [])
  else
    match splitWS entry with
    | [] =>
      let r := tagAndDns cfg w env st group host
      .ok ((r.1, group, host), r.2)
    | t0l :: rest =>
      let t0 : String := ⟨t0l⟩
      let st1 :=
        if group ≠ "_meta" ∧ group ≠ "all" ∧ alook group st.groups = none then
          {st with groups := st.groups ++ [(group, [])]}
        else st
      if group = "_meta" ∨ group = "all" then .error "KeyError: hosts"
      else
        let hosts := (alook group st1.groups).getD []
        let st2 :=
          if t0 ∈ hosts then st1
          else {st1 with groups := aupd group (fun hs => hs ++ [t0]) st1.groups}
        let dup :=
          if alook t0 st2.hostvars = none then
            ({st2 with hostvars := st2.hostvars ++ [(t0, [])]}, ([] : List Diag))
          else (st2, [Diag.duplicateHost t0])
        let st4 := applyVars t0 rest dup.1
        let r := tagAndDns cfg w env st4 group t0
        .ok ((r.1, group, t0), dup.2 ++ r.2)

def foldEntries (cfg : Config) (w : World) (env : Option String) (fname : String) :
    List String → InvState × String × String →
    Except String ((InvState × String × String) × List Diag)
  | [], acc => .ok (acc, [])
  | e :: es, acc =>
    match processEntry cfg w env fname acc.1 acc.2.1 acc.2.2 e with
    | .error msg => .error msg
    | .ok (acc', l1) =>
      match foldEntries cfg w env fname es acc' with
      | .error msg => .error msg
      | .ok (acc'', l2) => .ok (acc'', l1 ++ l2)

/-- `_process_single_host_file`: read the file (an unreadable file is a
warning, not an error) and process its lines with cursors
`group = "ungrouped"`, `host = ""`. -/
def processSingleHostFile (cfg : Config) (w : World) (filename : String)
    (env : Option String) (st : InvState) : Except String (InvState × List Diag) :=
  let st := {st with parserCalls := st.parserCalls ++ [(filename, env)],
                     accesses := st.accesses ++ [filename]}
  match w.fileLines filename with
  | none => .ok (st, [Diag.processingFile filename, Diag.couldNotRead filename])
  | some entries =>
    match foldEntries cfg w env filename entries (st, "ungrouped", "") with
    | .error e => .error e
    | .ok (acc, l) => .ok (acc.1, Diag.processingFile filename :: l)

/-! ## Directory walking (`_process_environment_directories`) -/

/-- `os.path.join` for the POSIX paths this plugin builds. -/
def pathJoin (a b : String) : String :=
  if b.data.head? = some '/' then b
  else if a = "" then b
  else if a.data.getLast? = some '/' then a ++ b
  else a ++ "/" ++ b

/-- `".." in env_dir or os.path.isabs(env_dir)`. -/
def dirUnsafe (d : String) : Bool :=
  hasSub "..".data d.data || d.data.head? = some '/'

def globAll (cfg : Config) (w : World) (env_path : String) : List String :=
  cfg.hosts_file_patterns.foldl (fun acc p => acc ++ w.globFiles (pathJoin env_path p)) []

/-- The dedupe loop of `_find_hosts_files`; also returns the paths passed to
`os.path.isfile` (`and` short-circuits: no check for an already-seen path). -/
def dedupeFiles (w : World) : List String → List String → List String × List String
  | [], _ => ([], [])
  | f :: fs, seen =>
    if f ∈ seen then dedupeFiles w fs seen
    else if w.pathIsFile f then
      let r := dedupeFiles w fs (f :: seen)
      (f :: r.1, f :: r.2)
    else
      let r := dedupeFiles w fs seen
      (r.1, f :: r.2)

/-- `_find_hosts_files`: glob each pattern under the directory, then keep
unique existing files in first-match order. -/
def findHostsFiles (cfg : Config) (w : World) (env_path : String) (st : InvState) :
    List String × InvState :=
  let pats := cfg.hosts_file_patterns.map (pathJoin env_path)
  let files := globAll cfg w env_path
  let r := dedupeFiles w files []
  (r.1, {st with accesses := st.accesses ++ pats ++ r.2})

def foldFiles (cfg : Config) (w : World) (d : String) :
    List String → InvState → Except String (InvState × List Diag)
  | [], st => .ok (st, [])
  | f :: fs, st =>
    match processSingleHostFile cfg w f (some d) st with
    | .error e => .error e
    | .ok (st', l1) =>
      match foldFiles cfg w d fs st' with
      | .error e => .error e
      | .ok (st'', l2) => .ok (st'', l1 ++ l2)

/-- The body of the `for env_dir in self.environment_dirs` loop. -/
def processOneEnvDir (cfg : Config) (w : World) (st : InvState) (env_dir : String) :
    Except String (InvState × List Diag) :=
  if dirUnsafe env_dir then .ok (st, [Diag.unsafeEnvDir env_dir])
  else
    let p := pathJoin cfg.hosts_directory env_dir
    let st := {st with accesses := st.accesses ++ [p]}
    if w.pathExists p = false then .ok (st, [Diag.envDirMissing p])
    else
      let st := {st with accesses := st.accesses ++ [p]}
      if w.pathIsDir p = false then .ok (st, [Diag.envPathNotDir p])
      else
        let r := findHostsFiles cfg w p st
        if r.1 = [] then .ok (r.2, [Diag.processingDir env_dir, Diag.noFilesInDir p])
        else
          let st2 := {r.2 with totalFiles := r.2.totalFiles + r.1.length}
          match foldFiles cfg w env_dir r.1 st2 with
          | .error e => .error e
          | .ok (st', l) =>
            .ok (st', Diag.processingDir env_dir ::
                      Diag.foundFiles env_dir r.1.length :: l)

def foldDirs (cfg : Config) (w : World) :
    List String → InvState → Except String (InvState × List Diag)
  | [], st => .ok (st, [])
  | d :: ds, st =>
    match processOneEnvDir cfg w st d with
    | .error e => .error e
    | .ok (st', l1) =>
      match foldDirs cfg w ds st' with
      | .error e => .error e
      | .ok (st'', l2) => .ok (st'', l1 ++ l2)

/-- The zero-files check after the directory loop. -/
def finalizeWalk (st : InvState) : InvState × List Diag :=
  if st.totalFiles = 0 then (st, [Diag.noFilesAtAll])
  else (st, [Diag.processedTotal st.totalFiles])

/-- `_process_environment_directories`. -/
def processEnvironmentDirectories (cfg : Config) (w : World) (st : InvState) :
    Except String (InvState × List Diag) :=
  match foldDirs cfg w cfg.environment_dirs st with
  | .error e => .error e
  | .ok (st', l) =>
    let r := finalizeWalk st'
    .ok (r.1, l ++ r.2)

/-- The `self.dns_resolution = False` assignment performed by `parse` when
dnspython is missing. -/
def effectiveConfig (cfg : Config) (w : World) : Config :=
  if cfg.dns_resolution = true ∧ w.hasDns = false then
    {cfg with dns_resolution := false}
  else cfg

/-- `parse`: configuration checks, fatal root-directory validation, then the
walk; the run-level DNS warning is emitted first, so it is prepended to the
diagnostics of the walk (diagnostics are write-only downstream). -/
def parse (cfg : Config) (w : World) : Except String (InvState × List Diag) :=
  if cfg.hosts_directory = "" then .error "hosts_directory is required"
  else if w.pathExists cfg.hosts_directory = false then
    .error ("Hosts directory does not exist: " ++ cfg.hosts_directory)
  else if w.pathIsDir cfg.hosts_directory = false then
    .error ("Hosts directory path is not a directory: " ++ cfg.hosts_directory)
  else
    match processEnvironmentDirectories (effectiveConfig cfg w) w initState with
    | .error e => .error ("Failed to process hosts directory: " ++ e)
    | .ok (st, l) =>
      .ok (st, if cfg.dns_resolution = true ∧ w.hasDns = false then
                 Diag.dnsUnavailable :: l
               else l)

/-- A string contains no lower-case ASCII letter (the sense in which the
abbreviator's outputs are "upper-case"). -/
def noLowerStr (s : String) : Prop := ∀ c ∈ s.data, isLowerC c = false

/-! ## Lemmas about the character model -/

theorem charToNat_ofNat_small (n : Nat) (h : n < 55296) : (Char.ofNat n).toNat = n := by
  unfold Char.ofNat
  rw [dif_pos (Or.inl h)]
  simp [Char.ofNatAux, Char.toNat, UInt32.toNat, BitVec.toNat_ofNatLt]

theorem isUpperC_iff (c : Char) : isUpperC c = true ↔ 65 ≤ c.toNat ∧ c.toNat ≤ 90 := by
  simp [isUpperC]

theorem isLowerC_iff (c : Char) : isLowerC c = true ↔ 97 ≤ c.toNat ∧ c.toNat ≤ 122 := by
  simp [isLowerC]

theorem isLowerC_toUpC (c : Char) : isLowerC (toUpC c) = false := by
  unfold toUpC
  by_cases h : isLowerC c = true
  · rw [if_pos h]
    rw [isLowerC_iff] at h
    have ht : (Char.ofNat (c.toNat - 32)).toNat = c.toNat - 32 :=
      charToNat_ofNat_small _ (by omega)
    simp [isLowerC, ht]
    omega
  · rw [if_neg h]
    simp at h
    exact h

theorem isLowerC_of_upper {c : Char} (h : isUpperC c = true) : isLowerC c = false := by
  rw [isUpperC_iff] at h
  simp [isLowerC]
  omega

theorem isSpaceC_toLowC (c : Char) : isSpaceC (toLowC c) = isSpaceC c := by
  unfold toLowC
  by_cases h : isUpperC c = true
  · rw [if_pos h]
    rw [isUpperC_iff] at h
    have ht : (Char.ofNat (c.toNat + 32)).toNat = c.toNat + 32 :=
      charToNat_ofNat_small _ (by omega)
    have h1 : isSpaceC c = false := by simp [isSpaceC]; omega
    have h2 : isSpaceC (Char.ofNat (c.toNat + 32)) = false := by simp [isSpaceC, ht]; omega
    rw [h1, h2]
  · rw [if_neg h]

theorem toUpC_toLowC (c : Char) : toUpC (toLowC c) = toUpC c := by
  by_cases h : isUpperC c = true
  · have hb := (isUpperC_iff c).mp h
    have hlow : isLowerC c = false := isLowerC_of_upper h
    have ht : (Char.ofNat (c.toNat + 32)).toNat = c.toNat + 32 :=
      charToNat_ofNat_small _ (by omega)
    have hl : isLowerC (Char.ofNat (c.toNat + 32)) = true := by
      rw [isLowerC_iff, ht]; omega
    unfold toLowC toUpC
    rw [if_pos h, if_pos hl, if_neg (by simp [hlow]), ht]
    have h32 : c.toNat + 32 - 32 = c.toNat := by omega
    rw [h32, Char.ofNat_toNat]
  · unfold toLowC
    rw [if_neg h]

theorem upList_ne_nil {l : List Char} (h : l ≠ []) : upList l ≠ [] := by
  simpa [upList] using h

theorem mem_upList_noLower {l : List Char} {c : Char} (h : c ∈ upList l) :
    isLowerC c = false := by
  obtain ⟨d, -, rfl⟩ := List.mem_map.mp h
  exact isLowerC_toUpC d

theorem lowList_length (l : List Char) : (lowList l).length = l.length := by
  simp [lowList]

theorem upList_length (l : List Char) : (upList l).length = l.length := by
  simp [upList]

theorem upList_lowList (l : List Char) : upList (lowList l) = upList l := by
  unfold upList lowList
  rw [List.map_map]
  rw [show (toUpC ∘ toLowC) = toUpC from funext toUpC_toLowC]

theorem stripList_lowList (l : List Char) :
    stripList (lowList l) = lowList (stripList l) := by
  have hpf : (isSpaceC ∘ toLowC) = isSpaceC := funext isSpaceC_toLowC
  unfold stripList lowList
  rw [List.dropWhile_map, hpf, ← List.map_reverse, List.dropWhile_map, hpf,
    ← List.map_reverse]

theorem mk_eq_empty_iff (l : List Char) : (⟨l⟩ : String) = "" ↔ l = [] := by
  constructor
  · intro h
    exact congrArg String.data h
  · intro h
    subst h
    rfl

/-! ## Lemmas about the abbreviator steps -/

theorem suffixStep_some {clean suf r : List Char} (h : suffixStep clean suf = some r) :
    r ≠ [] ∧ ∀ c ∈ r, isLowerC c = false := by
  unfold suffixStep at h
  by_cases he : endsL suf clean = true
  · rw [if_pos he] at h
    by_cases h2 : 2 ≤ (rstripDU (clean.take (clean.length - suf.length))).length
    · rw [if_pos h2] at h
      injection h with h
      subst h
      refine ⟨upList_ne_nil ?_, fun c hc => mem_upList_noLower hc⟩
      intro hb
      rw [hb] at h2
      simp at h2
    · rw [if_neg h2] at h
      simp at h
  · rw [if_neg he] at h
    simp at h

theorem hyphenStep_some {clean r : List Char} (h : hyphenStep clean = some r) :
    r ≠ [] ∧ ∀ c ∈ r, isLowerC c = false := by
  unfold hyphenStep at h
  by_cases hc : (containsC '-' clean || containsC '_' clean) = true
  · rw [if_pos hc] at h
    simp only at h
    by_cases h1 : 1 < (splitOnC '-' (clean.map fun c => if c = '_' then '-' else c)).length
    · rw [if_pos h1] at h
      by_cases h2 : 2 ≤ (firstAlphas (splitOnC '-' (clean.map fun c => if c = '_' then '-' else c))).length
      · rw [if_pos h2] at h
        injection h with h
        subst h
        refine ⟨upList_ne_nil ?_, fun c hc => mem_upList_noLower hc⟩
        intro hb
        rw [hb] at h2
        simp at h2
      · rw [if_neg h2] at h
        simp at h
    · rw [if_neg h1] at h
      simp at h
  · rw [if_neg hc] at h
    simp at h

theorem capsStep_some {s : String} {r : List Char} (h : capsStep s = some r) :
    r ≠ [] ∧ ∀ c ∈ r, isLowerC c = false := by
  unfold capsStep at h
  by_cases ha : s.data.any (fun c => isUpperC c) = true
  · rw [if_pos ha] at h
    simp only at h
    by_cases h2 : 2 ≤ (s.data.filter (fun c => isUpperC c)).length
    · rw [if_pos h2] at h
      injection h with h
      subst h
      constructor
      · intro hb
        rw [hb] at h2
        simp at h2
      · intro c hc
        exact isLowerC_of_upper (List.mem_filter.mp hc).2
    · rw [if_neg h2] at h
      simp at h
  · rw [if_neg ha] at h
    simp at h

theorem consonantsStep_spec (clean : List Char) (h : 3 < clean.length) :
    consonantsStep clean ≠ [] ∧ ∀ c ∈ consonantsStep clean, isLowerC c = false := by
  unfold consonantsStep
  simp only
  by_cases h3 : 3 ≤ (clean.filter (fun c => !(isVowelC c) && isAlphaC c)).length
  · rw [if_pos h3]
    refine ⟨upList_ne_nil ?_, fun c hc => mem_upList_noLower hc⟩
    intro hb
    have := congrArg List.length hb
    rw [List.length_take, List.length_nil] at this
    omega
  · rw [if_neg h3]
    by_cases h2 : (clean.filter (fun c => !(isVowelC c) && isAlphaC c)).length = 2
    · rw [if_pos h2]
      refine ⟨upList_ne_nil ?_, fun c hc => mem_upList_noLower hc⟩
      intro hb
      rw [hb] at h2
      simp at h2
    · rw [if_neg h2]
      refine ⟨upList_ne_nil ?_, fun c hc => mem_upList_noLower hc⟩
      intro hb
      have := congrArg List.length hb
      rw [List.length_take, List.length_nil] at this
      omega

theorem autoGen_spec (s : String) (h : stripList (lowList s.data) ≠ []) :
    autoGenerateEnvironmentCode s ≠ "" ∧ noLowerStr (autoGenerateEnvironmentCode s) := by
  have hmk : ∀ (r : List Char), r ≠ [] → (∀ c ∈ r, isLowerC c = false) →
      (⟨r⟩ : String) ≠ "" ∧ noLowerStr ⟨r⟩ := by
    intro r h1 h2
    exact ⟨fun hc => h1 ((mk_eq_empty_iff r).mp hc), h2⟩
  simp only [autoGenerateEnvironmentCode]
  by_cases h3 : (stripList (lowList s.data)).length ≤ 3
  · rw [if_pos h3]
    exact hmk _ (upList_ne_nil h) (fun c hc => mem_upList_noLower hc)
  · rw [if_neg h3]
    cases he : suffixStep (stripList (lowList s.data)) "environment".data with
    | some r => exact hmk r (suffixStep_some he).1 (suffixStep_some he).2
    | none =>
    cases hm : suffixStep (stripList (lowList s.data)) "ment".data with
    | some r => exact hmk r (suffixStep_some hm).1 (suffixStep_some hm).2
    | none =>
    cases hv : suffixStep (stripList (lowList s.data)) "env".data with
    | some r => exact hmk r (suffixStep_some hv).1 (suffixStep_some hv).2
    | none =>
    rw [if_pos (by omega : 3 < (stripList (lowList s.data)).length)]
    cases hh : hyphenStep (stripList (lowList s.data)) with
    | some r => exact hmk r (hyphenStep_some hh).1 (hyphenStep_some hh).2
    | none =>
    cases hcap : capsStep s with
    | some r => exact hmk r (capsStep_some hcap).1 (capsStep_some hcap).2
    | none =>
      have := consonantsStep_spec (stripList (lowList s.data)) (by omega)
      exact hmk _ this.1 this.2

theorem autoGen_short (s : String) (h3 : s.data.length ≤ 3)
    (hs : stripList s.data = s.data) :
    autoGenerateEnvironmentCode s = ⟨upList s.data⟩ := by
  have hc : stripList (lowList s.data) = lowList s.data := by
    rw [stripList_lowList, hs]
  simp only [autoGenerateEnvironmentCode, hc]
  rw [if_pos (by rw [lowList_length]; exact h3)]
  rw [upList_lowList]

/-- C4 (amended): for every input whose whitespace-stripped form is non-empty,
the Heuristic Abbreviator returns a non-empty string without lower-case ASCII
letters; for every input of length ≤ 3 that carries no leading or trailing
whitespace, the output equals the upper-cased input.  (The unamended claim
fails on whitespace: `" "` yields `""`.) -/
theorem abbreviator_totality (s : String) :
    (stripList s.data ≠ [] →
      autoGenerateEnvironmentCode s ≠ "" ∧ noLowerStr (autoGenerateEnvironmentCode s)) ∧
    (s.data.length ≤ 3 → stripList s.data = s.data →
      autoGenerateEnvironmentCode s = ⟨upList s.data⟩) := by
  constructor
  · intro h
    apply autoGen_spec
    rw [stripList_lowList]
    simpa [lowList] using h
  · exact autoGen_short s

/-- C4 witness: the amended theorem applied to the concrete inputs
`"sandbox-env"` and `"dt"`. -/
theorem abbreviator_totality_witness :
    (autoGenerateEnvironmentCode "sandbox-env" ≠ "" ∧
      noLowerStr (autoGenerateEnvironmentCode "sandbox-env")) ∧
    autoGenerateEnvironmentCode "dt" = ⟨upList "dt".data⟩ :=
  ⟨(abbreviator_totality "sandbox-env").1 (by decide),
   (abbreviator_totality "dt").2 (by decide) (by decide)⟩

/-- C4 counterexample: the single space is a non-empty string of length ≤ 3,
but the abbreviator returns the empty string on it (in particular not the
upper-cased input, which is `" "` itself). -/
theorem abbreviator_totality_counterexample :
    (" " : String) ≠ "" ∧ (" " : String).data.length ≤ 3 ∧
    autoGenerateEnvironmentCode " " = "" ∧
    (⟨upList (" " : String).data⟩ : String) = " " := by
  refine ⟨by decide, by decide, by decide, by decide⟩

/-! ## C3: environment-code resolution priority -/

theorem alook_ne_nil {α : Type} {k : String} {v : α} {l : List (String × α)}
    (h : alook k l = some v) : l ≠ [] := by
  intro he
  subst he
  simp [alook] at h

/-- C3: when the lower-cased directory name is a key of both the user-supplied
mapping and the built-in table, resolution returns the user mapping's value;
an empty or null directory name always resolves to `MISC`. -/
theorem envcode_user_mapping_priority (cfg : Config) (d uv bv : String)
    (hu : alook ⟨lowList d.data⟩ cfg.environment_mapping = some uv)
    (hb : alook ⟨lowList d.data⟩ builtInMapping = some bv) :
    generateEnvironmentCode cfg (some d) = uv ∧
    generateEnvironmentCode cfg none = "MISC" ∧
    generateEnvironmentCode cfg (some "") = "MISC" := by
  refine ⟨?_, by simp [generateEnvironmentCode], by simp [generateEnvironmentCode]⟩
  have hne : d ≠ "" := by
    intro he
    subst he
    have hnone : alook (⟨lowList "".data⟩ : String) builtInMapping = (none : Option String) := by
      decide
    rw [hnone] at hb
    exact Option.noConfusion hb
  simp only [generateEnvironmentCode, Option.getD]
  rw [if_neg (by simp [hne])]
  rw [if_pos ⟨alook_ne_nil hu, by simp [hu]⟩]
  simp [hu]

def cfgC3 : Config :=
  { hosts_directory := "r", environment_dirs := ["prod"],
    hosts_file_patterns := ["hosts.ini"], environment_mapping := [("prod", "MYPRD")],
    auto_environment_patterns := true, dns_resolution := false,
    environment_detection := true, check_interval := 0 }

/-- C3 witness: with a user mapping `prod → MYPRD` shadowing the built-in
`prod → PRD`, resolution of `"Prod"` returns `MYPRD`. -/
theorem envcode_user_mapping_priority_witness :
    generateEnvironmentCode cfgC3 (some "Prod") = "MYPRD" ∧
    generateEnvironmentCode cfgC3 none = "MISC" ∧
    generateEnvironmentCode cfgC3 (some "") = "MISC" :=
  envcode_user_mapping_priority cfgC3 "Prod" "MYPRD" "PRD" (by decide) (by decide)

/-! ## Lemmas about the association-list model -/

theorem alook_aupd {α : Type} (k k' : String) (f : α → α) (l : List (String × α)) :
    alook k (aupd k' f l) = if k' = k then (alook k l).map f else alook k l := by
  induction l with
  | nil => simp [alook, aupd]
  | cons p rest ih =>
    obtain ⟨a, b⟩ := p
    by_cases h1 : a = k'
    · subst h1
      by_cases h2 : a = k
      · subst h2
        simp [alook, aupd]
      · simp [alook, aupd, h2]
    · by_cases h2 : a = k
      · subst h2
        simp [alook, aupd, h1, Ne.symm h1]
      · simp [alook, aupd, h1, h2, ih]

theorem alook_append_some {α : Type} {k : String} {v : α} {l1 l2 : List (String × α)}
    (h : alook k l1 = some v) : alook k (l1 ++ l2) = some v := by
  induction l1 with
  | nil => simp [alook] at h
  | cons p rest ih =>
    obtain ⟨a, b⟩ := p
    by_cases h2 : a = k
    · subst h2
      simp [alook] at h ⊢
      exact h
    · simp [alook, h2] at h ⊢
      exact ih h

theorem alook_append_none {α : Type} {k : String} {l1 : List (String × α)}
    (l2 : List (String × α)) (h : alook k l1 = none) :
    alook k (l1 ++ l2) = alook k l2 := by
  induction l1 with
  | nil => simp
  | cons p rest ih =>
    obtain ⟨a, b⟩ := p
    by_cases h2 : a = k
    · subst h2
      simp [alook] at h
    · simp [alook, h2] at h ⊢
      exact ih h

theorem alook_setKV_self (k v : String) (l : List (String × String)) :
    alook k (setKV k v l) = some v := by
  unfold setKV
  by_cases h : (alook k l).isSome = true
  · rw [if_pos h, alook_aupd, if_pos rfl]
    obtain ⟨u, hu⟩ := Option.isSome_iff_exists.mp h
    rw [hu]
    rfl
  · rw [if_neg h]
    have hn : alook k l = none := by
      cases hl : alook k l
      · rfl
      · rw [hl] at h; simp at h
    rw [alook_append_none _ hn]
    simp [alook]

theorem alook_setKV_other {k k' : String} (h : k' ≠ k) (v : String)
    (l : List (String × String)) : alook k (setKV k' v l) = alook k l := by
  unfold setKV
  by_cases hs : (alook k' l).isSome = true
  · rw [if_pos hs, alook_aupd, if_neg h]
  · rw [if_neg hs]
    cases hl : alook k l with
    | some u => exact alook_append_some hl
    | none =>
      rw [alook_append_none _ hl]
      simp [alook, h]

theorem alook_setKV_isSome (k k' v : String) (l : List (String × String)) :
    ((alook k (setKV k' v l)).isSome = true) ↔
      ((alook k l).isSome = true ∨ k' = k) := by
  by_cases h : k' = k
  · subst h
    simp [alook_setKV_self]
  · rw [alook_setKV_other h]
    simp [h]

theorem alook_aupd_isSome {α : Type} (k k' : String) (f : α → α) (l : List (String × α)) :
    (alook k (aupd k' f l)).isSome = (alook k l).isSome := by
  rw [alook_aupd]
  split
  · cases alook k l <;> rfl
  · rfl

/-! ## C1: group-header lines with empty or whitespace-only names -/

/-- C1 (amended): a group-header line whose bracketed name is empty emits a
warning and registers nothing, but — the assignment `group = entry[...]`
precedes the emptiness check — it sets the group cursor to the empty string,
so subsequent host lines do not join the previously current group; a
whitespace-only name such as `[ ]` is a valid group name: it produces no
warning, is registered, and becomes the current cursor. -/
theorem group_header_empty_name (cfg : Config) (w : World) (env : Option String)
    (fname : String) (st : InvState) (group host : String) (rawEntry : String)
    (h1 : (stripList rawEntry.data).isEmpty = false)
    (h2 : ¬ (stripList rawEntry.data).head? = some '#')
    (h3 : (containsC '[' (stripList rawEntry.data) &&
           containsC ']' (stripList rawEntry.data)) = true) :
    ((⟨sliceLC (stripList rawEntry.data) (idxOf '[' (stripList rawEntry.data) + 1)
        (idxOf ']' (stripList rawEntry.data))⟩ : String) = "" →
      processEntry cfg w env fname st group host rawEntry =
        .ok ((st, "", host), [Diag.emptyGroupName fname])) ∧
    (∀ g : String,
      g = ⟨sliceLC (stripList rawEntry.data) (idxOf '[' (stripList rawEntry.data) + 1)
        (idxOf ']' (stripList rawEntry.data))⟩ → g ≠ "" →
      processEntry cfg w env fname st group host rawEntry =
        .ok ((if g ∈ st.allChildren then st
              else {st with allChildren := st.allChildren ++ [g]}, g, host), [])) := by
  constructor
  · intro hg
    simp only [processEntry]
    rw [if_neg (by simp [h1]), if_neg h2, if_pos h3, if_pos hg, hg]
  · intro g hgdef hg
    simp only [processEntry]
    rw [if_neg (by simp [h1]), if_neg h2, if_pos h3, ← hgdef, if_neg hg]
    by_cases hmem : g ∈ st.allChildren
    · rw [if_pos hmem, if_pos hmem]
    · rw [if_neg hmem, if_neg hmem]

/-- A configuration with DNS and environment detection both off, used for
concrete parser scenarios. -/
def cfgPlain : Config :=
  { hosts_directory := "r", environment_dirs := ["prod"],
    hosts_file_patterns := ["hosts.ini"], environment_mapping := [],
    auto_environment_patterns := true, dns_resolution := false,
    environment_detection := false, check_interval := 0 }

/-- A world with an empty filesystem and no DNS. -/
def wPlain : World :=
  { pathExists := fun _ => false, pathIsDir := fun _ => false,
    pathIsFile := fun _ => false, globFiles := fun _ => [],
    fileLines := fun _ => none, hasDns := false,
    dnsAnswer := fun _ => DnsRes.noRecord }

/-- C1 witness: `[]` warns and sets the cursor to `""`; `[ ]` registers the
group `" "` without a warning. -/
theorem group_header_empty_name_witness :
    (processEntry cfgPlain wPlain none "f" initState "grp" "" "[]" =
      .ok ((initState, "", ""), [Diag.emptyGroupName "f"])) ∧
    (processEntry cfgPlain wPlain none "f" initState "grp" "" "[ ]" =
      .ok ((if (" " : String) ∈ initState.allChildren then initState
            else {initState with allChildren := initState.allChildren ++ [" "]},
            " ", ""), [])) :=
  ⟨(group_header_empty_name cfgPlain wPlain none "f" initState "grp" "" "[]"
      (by decide) (by decide) (by decide)).1 (by decide),
   (group_header_empty_name cfgPlain wPlain none "f" initState "grp" "" "[ ]"
      (by decide) (by decide) (by decide)).2 " " (by decide) (by decide)⟩

/-- C1 counterexample: in the file `["[a]", "[]", "h1"]`, the host line after
the empty header joins the group named by the empty string — not the
previously current group `a` — even though the empty-name warning is emitted;
and the whitespace-only header `[ ]` emits no warning and registers `" "`. -/
theorem group_header_empty_name_counterexample :
    (foldEntries cfgPlain wPlain none "f" ["[a]", "[]", "h1"]
        (initState, "ungrouped", "")).toOption.map
      (fun r => (alook "a" r.1.1.groups, alook "" r.1.1.groups,
                 r.1.1.allChildren, r.2)) =
      some (none, some ["h1"], ["ungrouped", "a"], [Diag.emptyGroupName "f"]) ∧
    (foldEntries cfgPlain wPlain none "f" ["[ ]"]
        (initState, "ungrouped", "")).toOption.map
      (fun r => (r.1.1.allChildren, r.2)) =
      some (["ungrouped", " "], []) := by
  refine ⟨by decide, by decide⟩

/-! ## C2: environment tagging priority -/

theorem setEnvFromDir_fallback (cfg : Config) (h e : String) (st : InvState) :
    (setEnvironmentFromDirectory cfg h e st).1.fallbackRuns = st.fallbackRuns := by
  unfold setEnvironmentFromDirectory
  split <;> rfl

theorem resolveDns_fallback (w : World) (h : String) (st : InvState) :
    (resolveDns w h st).1.fallbackRuns = st.fallbackRuns := by
  unfold resolveDns
  simp only
  split <;> rfl

theorem envVar_after_setEnv (cfg : Config) (host e : String) (st : InvState)
    (hh : host ≠ "") (he : e ≠ "") (hv0 : List (String × String))
    (hhv0 : alook host st.hostvars = some hv0) :
    alook host (setEnvironmentFromDirectory cfg host e st).1.hostvars =
      some (setKV "environment" (generateEnvironmentCode cfg (some e)) hv0) := by
  unfold setEnvironmentFromDirectory
  rw [if_neg (by simp [hh, he])]
  simp only
  rw [alook_aupd, if_pos rfl, hhv0]
  rfl

theorem envVar_after_resolveDns (w : World) (host : String) (st : InvState)
    (hv : List (String × String)) (hl : alook host st.hostvars = some hv) :
    ∃ hv2, alook host (resolveDns w host st).1.hostvars = some hv2 ∧
      alook "environment" hv2 = alook "environment" hv := by
  unfold resolveDns
  simp only
  cases w.dnsAnswer host with
  | success cs =>
    cases cs with
    | nil => exact ⟨hv, hl, rfl⟩
    | cons c rest =>
      refine ⟨setKV "DNSName" c hv, ?_, ?_⟩
      · rw [alook_aupd, if_pos rfl, hl]
        rfl
      · exact alook_setKV_other (by decide) c hv
  | noRecord => exact ⟨hv, hl, rfl⟩
  | otherError => exact ⟨hv, hl, rfl⟩

theorem detectEnvironment_skips_existing {hx gx : String} {st : InvState}
    {hv : List (String × String)} (hl : alook hx st.hostvars = some hv)
    (hs : (alook "environment" hv).isSome = true) :
    detectEnvironment hx gx st = st := by
  unfold detectEnvironment
  by_cases h0 : hx = "" ∨ gx = ""
  · rw [if_pos h0]
  · rw [if_neg h0]
    simp only [hl]
    rw [if_pos hs]

/-- C2: with a directory hint and environment detection enabled, the host's
`environment` variable is set to the Resolver's code for the hint name,
overwriting any prior value; the group-name fallback is guarded by
`environment is None`, so it never runs when a hint is present (the
`fallbackRuns` instrumentation is unchanged); and the fallback never
overwrites an `environment` value that is already set for the host. -/
theorem environment_tagging (cfg : Config) (w : World) (st : InvState)
    (group host e : String) :
    (host ≠ "" → e ≠ "" → cfg.environment_detection = true →
      (alook host st.hostvars).isSome = true →
      ∃ hv, alook host (tagAndDns cfg w (some e) st group host).1.hostvars = some hv ∧
        alook "environment" hv = some (generateEnvironmentCode cfg (some e))) ∧
    ((tagAndDns cfg w (some e) st group host).1.fallbackRuns = st.fallbackRuns) ∧
    (∀ hx gx : String, ∀ hv, alook hx st.hostvars = some hv →
      (alook "environment" hv).isSome = true →
      detectEnvironment hx gx st = st) := by
  refine ⟨?_, ?_, ?_⟩
  · intro hh he hd hsome
    obtain ⟨hv0, hhv0⟩ := Option.isSome_iff_exists.mp hsome
    unfold tagAndDns
    simp only
    rw [if_neg (by simp : ¬ (host ≠ "" ∧ group ≠ "" ∧ cfg.environment_detection = true ∧
          (some e : Option String) = none))]
    have hA := envVar_after_setEnv cfg host e st hh he hv0 hhv0
    have hP : host ≠ "" ∧ envTruthy (some e) = true ∧ cfg.environment_detection = true :=
      ⟨hh, by simpa [envTruthy] using he, hd⟩
    by_cases hq : host ≠ "" ∧ cfg.dns_resolution = true
    · rw [if_pos hq, if_pos hP]
      obtain ⟨hv2, h2, h2e⟩ :=
        envVar_after_resolveDns w host (setEnvironmentFromDirectory cfg host e st).1 _ hA
      exact ⟨hv2, h2, by rw [h2e, alook_setKV_self]⟩
    · rw [if_neg hq, if_pos hP]
      exact ⟨_, hA, alook_setKV_self _ _ _⟩
  · unfold tagAndDns
    simp only
    rw [if_neg (by simp : ¬ (host ≠ "" ∧ group ≠ "" ∧ cfg.environment_detection = true ∧
          (some e : Option String) = none))]
    split
    · rw [resolveDns_fallback]
      split
      · rw [setEnvFromDir_fallback]
      · rfl
    · split
      · rw [setEnvFromDir_fallback]
      · rfl
  · intro hx gx hv hl hs
    exact detectEnvironment_skips_existing hl hs

def cfgC2 : Config :=
  { cfgPlain with environment_detection := true, dns_resolution := true }

def stC2 : InvState :=
  { initState with hostvars := [("h1", [("environment", "OLD")])] }

/-- C2 witness: a host that already carries `environment = OLD` gets it
overwritten by the directory-hint code for `prod`, and the fallback leaves a
host with an existing `environment` value untouched. -/
theorem environment_tagging_witness :
    (∃ hv, alook "h1" (tagAndDns cfgC2 wPlain (some "prod") stC2 "g" "h1").1.hostvars =
        some hv ∧
      alook "environment" hv = some (generateEnvironmentCode cfgC2 (some "prod"))) ∧
    ((tagAndDns cfgC2 wPlain (some "prod") stC2 "g" "h1").1.fallbackRuns =
      stC2.fallbackRuns) ∧
    detectEnvironment "h1" "g" stC2 = stC2 :=
  ⟨(environment_tagging cfgC2 wPlain stC2 "g" "h1" "prod").1
      (by decide) (by decide) (by decide) (by decide),
   (environment_tagging cfgC2 wPlain stC2 "g" "h1" "prod").2.1,
   (environment_tagging cfgC2 wPlain stC2 "g" "h1" "prod").2.2
      "h1" "g" [("environment", "OLD")] (by decide) (by decide)⟩

/-! ## C8: the hosts-have-hostvars invariant -/

/-- Every host appearing in any group's host list has a (possibly empty)
entry in `hostvars`. -/
def HostsInv (st : InvState) : Prop :=
  ∀ g hs, alook g st.groups = some hs → ∀ x ∈ hs, (alook x st.hostvars).isSome = true

theorem alook_append_isSome {α : Type} {k : String} {l1 : List (String × α)}
    (l2 : List (String × α)) (h : (alook k l1).isSome = true) :
    (alook k (l1 ++ l2)).isSome = true := by
  obtain ⟨v, hv⟩ := Option.isSome_iff_exists.mp h
  rw [alook_append_some hv]
  rfl

theorem HostsInv_mono {s1 s2 : InvState} (hg : s2.groups = s1.groups)
    (hh : ∀ x, (alook x s1.hostvars).isSome = true → (alook x s2.hostvars).isSome = true)
    (hinv : HostsInv s1) : HostsInv s2 := by
  intro g hs hgs x hx
  rw [hg] at hgs
  exact hh x (hinv g hs hgs x hx)

theorem setEnvFromDir_groups (cfg : Config) (h e : String) (st : InvState) :
    (setEnvironmentFromDirectory cfg h e st).1.groups = st.groups := by
  unfold setEnvironmentFromDirectory
  split <;> rfl

theorem setEnvFromDir_isSome (cfg : Config) (h e : String) (st : InvState) (x : String) :
    (alook x (setEnvironmentFromDirectory cfg h e st).1.hostvars).isSome =
      (alook x st.hostvars).isSome := by
  unfold setEnvironmentFromDirectory
  split
  · rfl
  · exact alook_aupd_isSome x h _ st.hostvars

theorem resolveDns_groups (w : World) (h : String) (st : InvState) :
    (resolveDns w h st).1.groups = st.groups := by
  unfold resolveDns
  simp only
  split <;> rfl

theorem resolveDns_isSome (w : World) (h : String) (st : InvState) (x : String) :
    (alook x (resolveDns w h st).1.hostvars).isSome = (alook x st.hostvars).isSome := by
  unfold resolveDns
  simp only
  split
  · rfl
  · exact alook_aupd_isSome x h _ st.hostvars
  · rfl
  · rfl

theorem detectEnvironment_groups (h g : String) (st : InvState) :
    (detectEnvironment h g st).groups = st.groups := by
  unfold detectEnvironment
  split
  · rfl
  · split
    · rfl
    · split <;> rfl

theorem detectEnvironment_isSome (h g : String) (st : InvState) (x : String) :
    (alook x (detectEnvironment h g st).hostvars).isSome = (alook x st.hostvars).isSome := by
  unfold detectEnvironment
  split
  · rfl
  · split
    · rfl
    · split
      · rfl
      · exact alook_aupd_isSome x h _ st.hostvars

theorem tagAndDns_groups (cfg : Config) (w : World) (env : Option String)
    (st : InvState) (g h : String) :
    (tagAndDns cfg w env st g h).1.groups = st.groups := by
  unfold tagAndDns
  dsimp only
  split
  · rw [detectEnvironment_groups]
    show (if _ then _ else _ : InvState × List Diag).1.groups = st.groups
    split
    · rw [resolveDns_groups]
      split
      · rw [setEnvFromDir_groups]
      · rfl
    · split
      · rw [setEnvFromDir_groups]
      · rfl
  · dsimp only
    split
    · rw [resolveDns_groups]
      split
      · rw [setEnvFromDir_groups]
      · rfl
    · split
      · rw [setEnvFromDir_groups]
      · rfl

theorem tagAndDns_isSome (cfg : Config) (w : World) (env : Option String)
    (st : InvState) (g h : String) (x : String) :
    (alook x (tagAndDns cfg w env st g h).1.hostvars).isSome =
      (alook x st.hostvars).isSome := by
  unfold tagAndDns
  dsimp only
  split
  · rw [detectEnvironment_isSome]
    show (alook x (if _ then _ else _ : InvState × List Diag).1.hostvars).isSome = _
    split
    · rw [resolveDns_isSome]
      split
      · rw [setEnvFromDir_isSome]
      · rfl
    · split
      · rw [setEnvFromDir_isSome]
      · rfl
  · dsimp only
    split
    · rw [resolveDns_isSome]
      split
      · rw [setEnvFromDir_isSome]
      · rfl
    · split
      · rw [setEnvFromDir_isSome]
      · rfl

theorem applyVars_groups (t0 : String) (items : List (List Char)) (st : InvState) :
    (applyVars t0 items st).groups = st.groups := by
  induction items generalizing st with
  | nil => rfl
  | cons it rest ih =>
    unfold applyVars
    rw [ih]
    split <;> rfl

theorem applyVars_isSome (t0 : String) (items : List (List Char)) (st : InvState)
    (x : String) :
    (alook x (applyVars t0 items st).hostvars).isSome = (alook x st.hostvars).isSome := by
  induction items generalizing st with
  | nil => rfl
  | cons it rest ih =>
    unfold applyVars
    rw [ih]
    split
    · exact alook_aupd_isSome x t0 _ st.hostvars
    · rfl

theorem inv_addEmptyGroup {st : InvState} (g0 : String) (hinv : HostsInv st) :
    HostsInv {st with groups := st.groups ++ [(g0, [])]} := by
  intro g hs hgs x hx
  show (alook x st.hostvars).isSome = true
  cases hl : alook g st.groups with
  | some hs0 =>
    rw [alook_append_some hl] at hgs
    injection hgs with hgs
    subst hgs
    exact hinv g hs0 hl x hx
  | none =>
    rw [alook_append_none _ hl] at hgs
    by_cases hg0 : g0 = g
    · simp [alook, hg0] at hgs
      subst hgs
      simp at hx
    · simp [alook, hg0] at hgs

/-- The state after the `i == 0` block of the host-line loop satisfies the
invariant, given the invariant before it and the facts the block establishes
(host added to a group list, hostvars entry ensured). -/
theorem inv_hostLine_core {st1 : InvState} (group t0 : String) (hinv1 : HostsInv st1)
    {st3 : InvState}
    (hg : st3.groups = st1.groups ∨
          st3.groups = aupd group (fun hs => hs ++ [t0]) st1.groups)
    (hh : ∀ x, (alook x st1.hostvars).isSome = true →
          (alook x st3.hostvars).isSome = true)
    (ht : (alook t0 st3.hostvars).isSome = true) :
    HostsInv st3 := by
  intro g hs hgs x hx
  cases hg with
  | inl hgeq =>
    rw [hgeq] at hgs
    exact hh x (hinv1 g hs hgs x hx)
  | inr hgeq =>
    rw [hgeq, alook_aupd] at hgs
    by_cases hgg : group = g
    · rw [if_pos hgg] at hgs
      cases hl : alook g st1.groups with
      | none => rw [hl] at hgs; simp at hgs
      | some hs0 =>
        rw [hl] at hgs
        injection hgs with hgs
        subst hgs
        rcases List.mem_append.mp hx with hx0 | hxt
        · exact hh x (hinv1 g hs0 hl x hx0)
        · simp at hxt
          subst hxt
          exact ht
    · rw [if_neg hgg] at hgs
      exact hh x (hinv1 g hs hgs x hx)

/-- The duplicate-host/hostvars-initialization block preserves the invariant
(the exact shape of the zeta-expanded host-line branch of `processEntry`). -/
theorem inv_dup_shape (st1 : InvState) (group t0 : String) (hinv1 : HostsInv st1) :
    HostsInv
      (if alook t0 (if t0 ∈ (alook group st1.groups).getD [] then st1
            else {st1 with groups := aupd group (fun hs => hs ++ [t0]) st1.groups}).hostvars
          = none then
         ({(if t0 ∈ (alook group st1.groups).getD [] then st1
            else {st1 with groups := aupd group (fun hs => hs ++ [t0]) st1.groups}) with
            hostvars :=
              (if t0 ∈ (alook group st1.groups).getD [] then st1
               else {st1 with groups := aupd group (fun hs => hs ++ [t0]) st1.groups}).hostvars
              ++ [(t0, [])]},
          ([] : List Diag))
       else
         ((if t0 ∈ (alook group st1.groups).getD [] then st1
           else {st1 with groups := aupd group (fun hs => hs ++ [t0]) st1.groups}),
          [Diag.duplicateHost t0])).1 := by
  by_cases hmem : t0 ∈ (alook group st1.groups).getD []
  · rw [if_pos hmem]
    by_cases hdup : alook t0 st1.hostvars = none
    · rw [if_pos hdup]
      dsimp only
      exact inv_hostLine_core group t0 hinv1 (Or.inl rfl)
        (fun x hx => alook_append_isSome _ hx)
        (by rw [alook_append_none _ hdup]; simp [alook])
    · rw [if_neg hdup]
      dsimp only
      refine inv_hostLine_core group t0 hinv1 (Or.inl rfl) (fun x hx => hx) ?_
      cases ho : alook t0 st1.hostvars with
      | none => exact absurd ho hdup
      | some v => rfl
  · rw [if_neg hmem]
    dsimp only
    by_cases hdup : alook t0 st1.hostvars = none
    · rw [if_pos hdup]
      dsimp only
      exact inv_hostLine_core group t0 hinv1 (Or.inr rfl)
        (fun x hx => alook_append_isSome _ hx)
        (by rw [alook_append_none _ hdup]; simp [alook])
    · rw [if_neg hdup]
      dsimp only
      refine inv_hostLine_core group t0 hinv1 (Or.inr rfl) (fun x hx => hx) ?_
      cases ho : alook t0 st1.hostvars with
      | none => exact absurd ho hdup
      | some v => rfl

theorem processEntry_preserves_inv {cfg : Config} {w : World} {env : Option String}
    {fname : String} {st : InvState} {group host : String} {e : String}
    {st' : InvState} {g' h' : String} {l : List Diag}
    (hok : processEntry cfg w env fname st group host e = .ok ((st', g', h'), l))
    (hinv : HostsInv st) : HostsInv st' := by
  unfold processEntry at hok
  by_cases c1 : ((stripList e.data).isEmpty = true)
  · rw [if_pos c1] at hok
    simp only [Except.ok.injEq, Prod.mk.injEq] at hok
    obtain ⟨⟨h1, -, -⟩, -⟩ := hok
    exact h1 ▸ hinv
  · rw [if_neg c1] at hok
    by_cases c2 : ((stripList e.data).head? = some '#')
    · rw [if_pos c2] at hok
      simp only [Except.ok.injEq, Prod.mk.injEq] at hok
      obtain ⟨⟨h1, -, -⟩, -⟩ := hok
      exact h1 ▸ hinv
    · rw [if_neg c2] at hok
      by_cases c3 : ((containsC '[' (stripList e.data) &&
          containsC ']' (stripList e.data)) = true)
      · rw [if_pos c3] at hok
        by_cases c4 : ((⟨sliceLC (stripList e.data) (idxOf '[' (stripList e.data) + 1)
            (idxOf ']' (stripList e.data))⟩ : String) = "")
        · rw [if_pos c4] at hok
          simp only [Except.ok.injEq, Prod.mk.injEq] at hok
          obtain ⟨⟨h1, -, -⟩, -⟩ := hok
          exact h1 ▸ hinv
        · rw [if_neg c4] at hok
          by_cases c5 : ((⟨sliceLC (stripList e.data) (idxOf '[' (stripList e.data) + 1)
              (idxOf ']' (stripList e.data))⟩ : String) ∈ st.allChildren)
          · rw [if_pos c5] at hok
            simp only [Except.ok.injEq, Prod.mk.injEq] at hok
            obtain ⟨⟨h1, -, -⟩, -⟩ := hok
            exact h1 ▸ hinv
          · rw [if_neg c5] at hok
            simp only [Except.ok.injEq, Prod.mk.injEq] at hok
            obtain ⟨⟨h1, -, -⟩, -⟩ := hok
            exact h1 ▸ hinv
      · rw [if_neg c3] at hok
        cases hsp : splitWS (stripList e.data) with
        | nil =>
          rw [hsp] at hok
          simp only [Except.ok.injEq, Prod.mk.injEq] at hok
          obtain ⟨⟨h1, -, -⟩, -⟩ := hok
          subst h1
          apply HostsInv_mono (tagAndDns_groups _ _ _ _ _ _)
            (fun x hx => by rw [tagAndDns_isSome]; exact hx)
          exact hinv
        | cons t0l rest =>
          rw [hsp] at hok
          dsimp only at hok
          by_cases c6 : (group = "_meta" ∨ group = "all")
          · rw [if_pos c6] at hok
            exact (Except.noConfusion hok)
          · rw [if_neg c6] at hok
            simp only [Except.ok.injEq, Prod.mk.injEq] at hok
            obtain ⟨⟨h1, -, -⟩, -⟩ := hok
            subst h1
            apply HostsInv_mono (tagAndDns_groups _ _ _ _ _ _)
              (fun x hx => by rw [tagAndDns_isSome]; exact hx)
            apply HostsInv_mono (applyVars_groups _ _ _)
              (fun x hx => by rw [applyVars_isSome]; exact hx)
            have hinv1 : HostsInv
                (if group ≠ "_meta" ∧ group ≠ "all" ∧ alook group st.groups = none then
                  {st with groups := st.groups ++ [(group, [])]}
                 else st) := by
              split
              · exact inv_addEmptyGroup group hinv
              · exact hinv
            exact inv_dup_shape _ group _ hinv1

/-- C8 (amended): at every point of a run, every host appearing in any
group's host list has a (possibly empty) entry in `hostvars`: the invariant
holds for the initial structure and is preserved by every processed line.
(The second half of the unamended claim — every referenced group name is a
key of the structure — is false: a group registered by a header line is
referenced in the `all` children without becoming a key until a host line
occurs under it.) -/
theorem inventory_invariant :
    HostsInv initState ∧
    (∀ (cfg : Config) (w : World) (env : Option String) (fname : String)
       (st : InvState) (group host e : String) (st' : InvState) (g' h' : String)
       (l : List Diag),
      processEntry cfg w env fname st group host e = .ok ((st', g', h'), l) →
      HostsInv st → HostsInv st') := by
  constructor
  · intro g hs hgs
    simp [initState, alook] at hgs
  · intro cfg w env fname st group host e st' g' h' l hok hinv
    exact processEntry_preserves_inv hok hinv

/-- The state produced by processing the single host line `h1` under group
cursor `g` from the initial state. -/
def stC8res : InvState :=
  { hostvars := [("h1", [])], groups := [("g", ["h1"])],
    allChildren := ["ungrouped"], totalFiles := 0, accesses := [],
    parserCalls := [], fallbackRuns := 0, dnsCalls := [] }

/-- C8 witness: the invariant theorem applied to the concrete step that adds
host `h1` to group `g`. -/
theorem inventory_invariant_witness : HostsInv stC8res :=
  inventory_invariant.2 cfgPlain wPlain none "f" initState "g" "" "h1"
    stC8res "g" "h1" [] (by rfl) inventory_invariant.1

/-- C8 counterexample: after processing the header-only file `["[web]"]`,
both `ungrouped` and `web` are referenced as children of `all` but neither is
a key of the inventory structure, refuting the claim's second half. -/
theorem inventory_invariant_counterexample :
    (foldEntries cfgPlain wPlain none "f" ["[web]"]
        (initState, "ungrouped", "")).toOption.map
      (fun r => (decide ("web" ∈ r.1.1.allChildren), alook "web" r.1.1.groups,
                 decide ("ungrouped" ∈ r.1.1.allChildren),
                 alook "ungrouped" r.1.1.groups)) =
      some (true, none, true, none) := by decide

/-! ## Tokenizer characterization lemmas (for C5) -/

theorem dropWhile_eq_self {α : Type} {p : α → Bool} {l : List α}
    (h : ∀ c, l.head? = some c → p c = false) : l.dropWhile p = l := by
  cases l with
  | nil => rfl
  | cons a as =>
    rw [List.dropWhile_cons, if_neg (by simp [h a rfl])]

theorem stripList_id {l : List Char}
    (h1 : ∀ c, l.head? = some c → isSpaceC c = false)
    (h2 : ∀ c, l.getLast? = some c → isSpaceC c = false) : stripList l = l := by
  unfold stripList
  rw [dropWhile_eq_self h1]
  rw [dropWhile_eq_self (fun c hc => h2 c (by rw [← List.head?_reverse]; exact hc))]
  exact List.reverse_reverse l

theorem splitWSGo_nospace_acc {t : List Char} (hns : ∀ c ∈ t, isSpaceC c = false) :
    ∀ rest acc, splitWSGo (t ++ rest) acc = splitWSGo rest (t.reverse ++ acc) := by
  induction t with
  | nil => intro rest acc; simp
  | cons a as ih =>
    intro rest acc
    rw [List.cons_append]
    show (if isSpaceC a = true then _ else splitWSGo (as ++ rest) (a :: acc)) = _
    rw [if_neg (by simp [hns a (by simp)])]
    rw [ih (fun c hc => hns c (by simp [hc])) rest (a :: acc)]
    simp

theorem splitWS_single {t : List Char} (hne : t ≠ [])
    (hns : ∀ c ∈ t, isSpaceC c = false) : splitWS t = [t] := by
  unfold splitWS
  have hgo := splitWSGo_nospace_acc hns [] []
  rw [List.append_nil] at hgo
  rw [hgo]
  simp only [splitWSGo]
  rw [if_neg (by simp [hne])]
  simp

theorem splitWS_append_space {t : List Char} (rest : List Char) (hne : t ≠ [])
    (hns : ∀ c ∈ t, isSpaceC c = false) :
    splitWS (t ++ ' ' :: rest) = t :: splitWS rest := by
  unfold splitWS
  rw [splitWSGo_nospace_acc hns (' ' :: rest) []]
  simp only [splitWSGo]
  rw [if_pos (by decide : isSpaceC ' ' = true), if_neg (by simp [hne])]
  simp

theorem containsC_append (c : Char) (l1 l2 : List Char) :
    containsC c (l1 ++ l2) = (containsC c l1 || containsC c l2) := by
  induction l1 with
  | nil => simp [containsC]
  | cons a as ih => simp [containsC, ih, Bool.or_assoc]

theorem containsC_eq_false {c : Char} {l : List Char} (h : ∀ d ∈ l, d ≠ c) :
    containsC c l = false := by
  induction l with
  | nil => rfl
  | cons a as ih =>
    simp only [containsC, Bool.or_eq_false_iff]
    exact ⟨by simp [h a (by simp)], ih (fun d hd => h d (by simp [hd]))⟩

/-! ## C5: duplicate hosts across two files -/

/-- The token `role=<value>`. -/
def roleTok (v : String) : List Char := 'r' :: 'o' :: 'l' :: 'e' :: '=' :: v.data

/-- A host-definition line `<host> role=<value>`. -/
def dbEntry (h v : String) : String := ⟨h.data ++ ' ' :: roleTok v⟩

theorem dbEntry_strip (h v : String) (hh : h.data ≠ [])
    (hhS : ∀ c ∈ h.data, isSpaceC c = false)
    (hvS : ∀ c ∈ v.data, isSpaceC c = false) :
    stripList (dbEntry h v).data = h.data ++ ' ' :: roleTok v := by
  apply stripList_id
  · intro c hc
    obtain ⟨a, as, ha⟩ : ∃ a as, h.data = a :: as := by
      cases hd : h.data with
      | nil => exact absurd hd hh
      | cons a as => exact ⟨a, as, rfl⟩
    rw [show (dbEntry h v).data = h.data ++ ' ' :: roleTok v from rfl, ha] at hc
    simp at hc
    subst hc
    exact hhS a (by rw [ha]; simp)
  · intro c hc
    rw [show (dbEntry h v).data = h.data ++ ' ' :: roleTok v from rfl,
        List.getLast?_append] at hc
    cases hv : v.data with
    | nil =>
      rw [show (' ' :: roleTok v).getLast? = some '=' by
            rw [show roleTok v = 'r' :: 'o' :: 'l' :: 'e' :: '=' :: v.data from rfl, hv]
            rfl] at hc
      simp at hc
      subst hc
      decide
    | cons b bs =>
      rw [show (' ' :: roleTok v).getLast? = (b :: bs).getLast? by
            rw [show roleTok v = 'r' :: 'o' :: 'l' :: 'e' :: '=' :: v.data from rfl, hv]
            simp ] at hc
      obtain ⟨x, hx⟩ : ∃ x, (b :: bs).getLast? = some x := by
        cases hl : (b :: bs).getLast? with
        | none => simp at hl
        | some x => exact ⟨x, rfl⟩
      rw [hx] at hc
      simp [Option.or] at hc
      subst hc
      exact hvS x (by rw [hv]; exact List.mem_of_getLast?_eq_some hx)

theorem dbEntry_noBracket (h v : String)
    (hhB : ∀ c ∈ h.data, c ≠ '[') (hvB : ∀ c ∈ v.data, c ≠ '[') :
    containsC '[' (h.data ++ ' ' :: roleTok v) = false := by
  have hT : ∀ d ∈ ' ' :: roleTok v, d ≠ '[' := by
    intro d hd
    rw [show roleTok v = 'r' :: 'o' :: 'l' :: 'e' :: '=' :: v.data from rfl] at hd
    simp at hd
    rcases hd with rfl | rfl | rfl | rfl | rfl | rfl | hd
    · decide
    · decide
    · decide
    · decide
    · decide
    · decide
    · exact hvB d hd
  rw [containsC_append, containsC_eq_false hhB, containsC_eq_false hT]
  rfl

theorem dbEntry_split (h v : String) (hh : h.data ≠ [])
    (hhS : ∀ c ∈ h.data, isSpaceC c = false)
    (hvS : ∀ c ∈ v.data, isSpaceC c = false) :
    splitWS (h.data ++ ' ' :: roleTok v) = [h.data, roleTok v] := by
  have hT : ∀ d ∈ roleTok v, isSpaceC d = false := by
    intro d hd
    rw [show roleTok v = 'r' :: 'o' :: 'l' :: 'e' :: '=' :: v.data from rfl] at hd
    simp at hd
    rcases hd with rfl | rfl | rfl | rfl | rfl | hd
    · decide
    · decide
    · decide
    · decide
    · decide
    · exact hvS d hd
  have hne2 : roleTok v ≠ [] := by
    rw [show roleTok v = 'r' :: 'o' :: 'l' :: 'e' :: '=' :: v.data from rfl]
    simp
  rw [splitWS_append_space _ hh hhS, splitWS_single hne2 hT]

theorem mk_data_eta (s : String) : (⟨s.data⟩ : String) = s := rfl

theorem tagAndDns_off (cfg : Config) (w : World) (env : Option String) (st : InvState)
    (g h : String) (hdns : cfg.dns_resolution = false)
    (hdet : cfg.environment_detection = false) :
    tagAndDns cfg w env st g h = (st, []) := by
  unfold tagAndDns
  simp only
  rw [if_neg (show ¬(h ≠ "" ∧ envTruthy env = true ∧ cfg.environment_detection = true)
        from by simp [hdet])]
  rw [if_neg (show ¬(h ≠ "" ∧ cfg.dns_resolution = true) from by simp [hdns])]
  rw [if_neg (show ¬(h ≠ "" ∧ g ≠ "" ∧ cfg.environment_detection = true ∧ env = none)
        from by simp [hdet])]
  rfl

theorem hostline_fresh (w : World) (fname : String) (h v : String) (st : InvState)
    (hgroups : st.groups = []) (hhost : st.hostvars = [])
    (hh : h.data ≠ [])
    (hhS : ∀ c ∈ h.data, isSpaceC c = false)
    (hhB : ∀ c ∈ h.data, c ≠ '[')
    (hh3 : ¬ h.data.head? = some '#')
    (hvS : ∀ c ∈ v.data, isSpaceC c = false)
    (hvB : ∀ c ∈ v.data, c ≠ '[') :
    processEntry cfgPlain w none fname st "db" "" (dbEntry h v) =
      .ok (({st with groups := [("db", [h])], hostvars := [(h, [("role", v)])]},
            "db", h), []) := by
  have hstrip := dbEntry_strip h v hh hhS hvS
  have hcon := dbEntry_noBracket h v hhB hvB
  have hsp := dbEntry_split h v hh hhS hvS
  obtain ⟨a, as, ha⟩ : ∃ a as, h.data = a :: as := by
    cases hd : h.data with
    | nil => exact absurd hd hh
    | cons a as => exact ⟨a, as, rfl⟩
  have ha2 : a ≠ '#' := by
    intro he
    exact hh3 (by rw [ha, he]; rfl)
  unfold processEntry
  rw [hstrip]
  rw [if_neg (by rw [ha]; simp)]
  rw [if_neg (by rw [ha]; simp [ha2])]
  rw [if_neg (by simp [hcon])]
  rw [hsp]
  dsimp only
  rw [if_neg (by decide : ¬(("db" : String) = "_meta" ∨ ("db" : String) = "all"))]
  rw [hgroups, hhost]
  simp [alook, aupd, setKV, applyVars, splitEq1, splitEqGo, containsC,
    tagAndDns_off, cfgPlain, mk_data_eta, hgroups, hhost]

theorem hostline_dup (w : World) (fname : String) (h v vOld : String) (st : InvState)
    (hgroups : st.groups = [("db", [h])])
    (hhost : st.hostvars = [(h, [("role", vOld)])])
    (hh : h.data ≠ [])
    (hhS : ∀ c ∈ h.data, isSpaceC c = false)
    (hhB : ∀ c ∈ h.data, c ≠ '[')
    (hh3 : ¬ h.data.head? = some '#')
    (hvS : ∀ c ∈ v.data, isSpaceC c = false)
    (hvB : ∀ c ∈ v.data, c ≠ '[') :
    processEntry cfgPlain w none fname st "db" "" (dbEntry h v) =
      .ok (({st with hostvars := [(h, [("role", v)])]}, "db", h),
           [Diag.duplicateHost h]) := by
  have hstrip := dbEntry_strip h v hh hhS hvS
  have hcon := dbEntry_noBracket h v hhB hvB
  have hsp := dbEntry_split h v hh hhS hvS
  obtain ⟨a, as, ha⟩ : ∃ a as, h.data = a :: as := by
    cases hd : h.data with
    | nil => exact absurd hd hh
    | cons a as => exact ⟨a, as, rfl⟩
  have ha2 : a ≠ '#' := by
    intro he
    exact hh3 (by rw [ha, he]; rfl)
  unfold processEntry
  rw [hstrip]
  rw [if_neg (by rw [ha]; simp)]
  rw [if_neg (by rw [ha]; simp [ha2])]
  rw [if_neg (by simp [hcon])]
  rw [hsp]
  dsimp only
  rw [if_neg (by decide : ¬(("db" : String) = "_meta" ∨ ("db" : String) = "all"))]
  rw [hgroups, hhost]
  simp [alook, aupd, setKV, applyVars, splitEq1, splitEqGo, containsC,
    tagAndDns_off, cfgPlain, mk_data_eta, hgroups, hhost]

theorem header_db (cfg : Config) (w : World) (env : Option String) (fname : String)
    (st : InvState) (group host : String) :
    processEntry cfg w env fname st group host "[db]" =
      .ok ((if ("db" : String) ∈ st.allChildren then st
            else {st with allChildren := st.allChildren ++ ["db"]}, "db", host), []) := by
  unfold processEntry
  rw [if_neg (show ¬((stripList ("[db]" : String).data).isEmpty = true) from by decide)]
  rw [if_neg (show ¬((stripList ("[db]" : String).data).head? = some '#') from by decide)]
  rw [if_pos (show (containsC '[' (stripList ("[db]" : String).data) &&
      containsC ']' (stripList ("[db]" : String).data)) = true from by decide)]
  rw [show (⟨sliceLC (stripList ("[db]" : String).data)
      (idxOf '[' (stripList ("[db]" : String).data) + 1)
      (idxOf ']' (stripList ("[db]" : String).data))⟩ : String) = "db" from by decide]
  rw [if_neg (show ¬(("db" : String) = "") from by decide)]
  split <;> rfl

/-- The world for the duplicate-host scenario: two files `f1`, `f2` that both
define the same host in group `db` with different `role` values. -/
def wC5 (h v1 v2 : String) : World :=
  { wPlain with
    fileLines := fun p =>
      if p = "f1" then some ["[db]", dbEntry h v1]
      else if p = "f2" then some ["[db]", dbEntry h v2] else none }

def stC5a (h v1 : String) : InvState :=
  { hostvars := [(h, [("role", v1)])], groups := [("db", [h])],
    allChildren := ["ungrouped", "db"], totalFiles := 0,
    accesses := ["f1"], parserCalls := [("f1", none)], fallbackRuns := 0, dnsCalls := [] }

def stC5b (h v2 : String) : InvState :=
  { hostvars := [(h, [("role", v2)])], groups := [("db", [h])],
    allChildren := ["ungrouped", "db"], totalFiles := 0,
    accesses := ["f1", "f2"], parserCalls := [("f1", none), ("f2", none)],
    fallbackRuns := 0, dnsCalls := [] }

def stC5s (h v2 : String) : InvState :=
  { hostvars := [(h, [("role", v2)])], groups := [("db", [h])],
    allChildren := ["ungrouped", "db"], totalFiles := 0,
    accesses := ["f2"], parserCalls := [("f2", none)], fallbackRuns := 0, dnsCalls := [] }

theorem c5_run1 (h v1 v2 : String)
    (hh : h.data ≠ [])
    (hhS : ∀ c ∈ h.data, isSpaceC c = false)
    (hhB : ∀ c ∈ h.data, c ≠ '[')
    (hh3 : ¬ h.data.head? = some '#')
    (hv1S : ∀ c ∈ v1.data, isSpaceC c = false)
    (hv1B : ∀ c ∈ v1.data, c ≠ '[') :
    processSingleHostFile cfgPlain (wC5 h v1 v2) "f1" none initState =
      .ok (stC5a h v1, [Diag.processingFile "f1"]) := by
  unfold processSingleHostFile
  rw [show (wC5 h v1 v2).fileLines "f1" = some ["[db]", dbEntry h v1] from rfl]
  dsimp only [initState]
  unfold foldEntries
  rw [header_db]
  rw [if_neg (show ¬(("db" : String) ∈ (["ungrouped"] : List String)) from by decide)]
  dsimp only
  unfold foldEntries
  rw [hostline_fresh (wC5 h v1 v2) "f1" h v1
      ({ hostvars := [], groups := [], allChildren := ["ungrouped"] ++ ["db"],
         totalFiles := 0, accesses := [] ++ ["f1"], parserCalls := [] ++ [("f1", none)],
         fallbackRuns := 0, dnsCalls := [] })
      rfl rfl hh hhS hhB hh3 hv1S hv1B]
  simp [stC5a, foldEntries]

theorem c5_run2 (h v1 v2 : String)
    (hh : h.data ≠ [])
    (hhS : ∀ c ∈ h.data, isSpaceC c = false)
    (hhB : ∀ c ∈ h.data, c ≠ '[')
    (hh3 : ¬ h.data.head? = some '#')
    (hv2S : ∀ c ∈ v2.data, isSpaceC c = false)
    (hv2B : ∀ c ∈ v2.data, c ≠ '[') :
    processSingleHostFile cfgPlain (wC5 h v1 v2) "f2" none (stC5a h v1) =
      .ok (stC5b h v2, [Diag.processingFile "f2", Diag.duplicateHost h]) := by
  unfold processSingleHostFile
  rw [show (wC5 h v1 v2).fileLines "f2" = some ["[db]", dbEntry h v2] from rfl]
  dsimp only [stC5a]
  unfold foldEntries
  rw [header_db]
  rw [if_pos (show ("db" : String) ∈ (["ungrouped", "db"] : List String) from by decide)]
  dsimp only
  unfold foldEntries
  rw [hostline_dup (wC5 h v1 v2) "f2" h v2 v1
      ({ hostvars := [(h, [("role", v1)])], groups := [("db", [h])],
         allChildren := ["ungrouped", "db"], totalFiles := 0,
         accesses := ["f1"] ++ ["f2"], parserCalls := [("f1", none)] ++ [("f2", none)],
         fallbackRuns := 0, dnsCalls := [] })
      rfl rfl hh hhS hhB hh3 hv2S hv2B]
  simp [stC5b, foldEntries]

theorem c5_runSingle (h v1 v2 : String)
    (hh : h.data ≠ [])
    (hhS : ∀ c ∈ h.data, isSpaceC c = false)
    (hhB : ∀ c ∈ h.data, c ≠ '[')
    (hh3 : ¬ h.data.head? = some '#')
    (hv2S : ∀ c ∈ v2.data, isSpaceC c = false)
    (hv2B : ∀ c ∈ v2.data, c ≠ '[') :
    processSingleHostFile cfgPlain (wC5 h v1 v2) "f2" none initState =
      .ok (stC5s h v2, [Diag.processingFile "f2"]) := by
  unfold processSingleHostFile
  rw [show (wC5 h v1 v2).fileLines "f2" = some ["[db]", dbEntry h v2] from rfl]
  dsimp only [initState]
  unfold foldEntries
  rw [header_db]
  rw [if_neg (show ¬(("db" : String) ∈ (["ungrouped"] : List String)) from by decide)]
  dsimp only
  unfold foldEntries
  rw [hostline_fresh (wC5 h v1 v2) "f2" h v2
      ({ hostvars := [], groups := [], allChildren := ["ungrouped"] ++ ["db"],
         totalFiles := 0, accesses := [] ++ ["f2"], parserCalls := [] ++ [("f2", none)],
         fallbackRuns := 0, dnsCalls := [] })
      rfl rfl hh hhS hhB hh3 hv2S hv2B]
  simp [stC5s, foldEntries]

/-- C5: when the same (well-formed) host name is defined in two files
processed in sequence, the second file's processing emits exactly one
duplicate-host diagnostic (the first emits none), the resulting host and
group sets — groups, host lists, and registered children — equal those of a
single definition, group host lists stay duplicate-free, and the host's
`role` variable ends with the second file's value. -/
theorem duplicate_host_merge (h v1 v2 : String)
    (hh : h.data ≠ [])
    (hhS : ∀ c ∈ h.data, isSpaceC c = false)
    (hhB : ∀ c ∈ h.data, c ≠ '[')
    (hh3 : ¬ h.data.head? = some '#')
    (hv1S : ∀ c ∈ v1.data, isSpaceC c = false)
    (hv1B : ∀ c ∈ v1.data, c ≠ '[')
    (hv2S : ∀ c ∈ v2.data, isSpaceC c = false)
    (hv2B : ∀ c ∈ v2.data, c ≠ '[') :
    (processSingleHostFile cfgPlain (wC5 h v1 v2) "f1" none initState =
      .ok (stC5a h v1, [Diag.processingFile "f1"])) ∧
    (processSingleHostFile cfgPlain (wC5 h v1 v2) "f2" none (stC5a h v1) =
      .ok (stC5b h v2, [Diag.processingFile "f2", Diag.duplicateHost h])) ∧
    (processSingleHostFile cfgPlain (wC5 h v1 v2) "f2" none initState =
      .ok (stC5s h v2, [Diag.processingFile "f2"])) ∧
    (stC5b h v2).groups = (stC5s h v2).groups ∧
    (stC5b h v2).hostvars = (stC5s h v2).hostvars ∧
    (stC5b h v2).allChildren = (stC5s h v2).allChildren ∧
    (stC5b h v2).groups = [("db", [h])] ∧
    alook h (stC5b h v2).hostvars = some [("role", v2)] :=
  ⟨c5_run1 h v1 v2 hh hhS hhB hh3 hv1S hv1B,
   c5_run2 h v1 v2 hh hhS hhB hh3 hv2S hv2B,
   c5_runSingle h v1 v2 hh hhS hhB hh3 hv2S hv2B,
   rfl, rfl, rfl, rfl, by simp [stC5b, alook]⟩

/-- C5 witness: the merge theorem at `db01` with `role=alpha` then
`role=beta`. -/
theorem duplicate_host_merge_witness :
    (processSingleHostFile cfgPlain (wC5 "db01" "alpha" "beta") "f1" none initState =
      .ok (stC5a "db01" "alpha", [Diag.processingFile "f1"])) ∧
    (processSingleHostFile cfgPlain (wC5 "db01" "alpha" "beta") "f2" none
        (stC5a "db01" "alpha") =
      .ok (stC5b "db01" "beta",
           [Diag.processingFile "f2", Diag.duplicateHost "db01"])) ∧
    (processSingleHostFile cfgPlain (wC5 "db01" "alpha" "beta") "f2" none initState =
      .ok (stC5s "db01" "beta", [Diag.processingFile "f2"])) ∧
    (stC5b "db01" "beta").groups = (stC5s "db01" "beta").groups ∧
    (stC5b "db01" "beta").hostvars = (stC5s "db01" "beta").hostvars ∧
    (stC5b "db01" "beta").allChildren = (stC5s "db01" "beta").allChildren ∧
    (stC5b "db01" "beta").groups = [("db", ["db01"])] ∧
    alook "db01" (stC5b "db01" "beta").hostvars = some [("role", "beta")] :=
  duplicate_host_merge "db01" "alpha" "beta" (by decide) (by decide) (by decide)
    (by decide) (by decide) (by decide) (by decide) (by decide)

/-! ## Ghost-field and diagnostic facts through the processing levels -/

theorem setEnvFromDir_ghost (cfg : Config) (h e : String) (st : InvState) :
    (setEnvironmentFromDirectory cfg h e st).1.accesses = st.accesses ∧
    (setEnvironmentFromDirectory cfg h e st).1.parserCalls = st.parserCalls ∧
    (setEnvironmentFromDirectory cfg h e st).1.totalFiles = st.totalFiles ∧
    (setEnvironmentFromDirectory cfg h e st).1.dnsCalls = st.dnsCalls := by
  unfold setEnvironmentFromDirectory
  split <;> exact ⟨rfl, rfl, rfl, rfl⟩

theorem resolveDns_ghost (w : World) (h : String) (st : InvState) :
    (resolveDns w h st).1.accesses = st.accesses ∧
    (resolveDns w h st).1.parserCalls = st.parserCalls ∧
    (resolveDns w h st).1.totalFiles = st.totalFiles := by
  unfold resolveDns
  simp only
  split <;> exact ⟨rfl, rfl, rfl⟩

theorem detectEnvironment_ghost (h g : String) (st : InvState) :
    (detectEnvironment h g st).accesses = st.accesses ∧
    (detectEnvironment h g st).parserCalls = st.parserCalls ∧
    (detectEnvironment h g st).totalFiles = st.totalFiles ∧
    (detectEnvironment h g st).dnsCalls = st.dnsCalls ∧
    (detectEnvironment h g st).fallbackRuns = st.fallbackRuns := by
  unfold detectEnvironment
  split
  · exact ⟨rfl, rfl, rfl, rfl, rfl⟩
  · split
    · exact ⟨rfl, rfl, rfl, rfl, rfl⟩
    · split <;> exact ⟨rfl, rfl, rfl, rfl, rfl⟩

theorem bumpFallback_accesses (s : InvState) : (bumpFallback s).accesses = s.accesses := rfl

theorem bumpFallback_parserCalls (s : InvState) :
    (bumpFallback s).parserCalls = s.parserCalls := rfl

theorem bumpFallback_totalFiles (s : InvState) : (bumpFallback s).totalFiles = s.totalFiles := rfl

theorem bumpFallback_dnsCalls (s : InvState) : (bumpFallback s).dnsCalls = s.dnsCalls := rfl

theorem tagAndDns_accesses (cfg : Config) (w : World) (env : Option String)
    (st : InvState) (g h : String) :
    (tagAndDns cfg w env st g h).1.accesses = st.accesses := by
  unfold tagAndDns
  dsimp only
  split
  · rw [(detectEnvironment_ghost _ _ _).1, bumpFallback_accesses]
    split
    · rw [(resolveDns_ghost _ _ _).1]
      split
      · rw [(setEnvFromDir_ghost _ _ _ _).1]
      · rfl
    · split
      · rw [(setEnvFromDir_ghost _ _ _ _).1]
      · rfl
  · dsimp only
    split
    · rw [(resolveDns_ghost _ _ _).1]
      split
      · rw [(setEnvFromDir_ghost _ _ _ _).1]
      · rfl
    · split
      · rw [(setEnvFromDir_ghost _ _ _ _).1]
      · rfl

theorem tagAndDns_parserCalls (cfg : Config) (w : World) (env : Option String)
    (st : InvState) (g h : String) :
    (tagAndDns cfg w env st g h).1.parserCalls = st.parserCalls := by
  unfold tagAndDns
  dsimp only
  split
  · rw [(detectEnvironment_ghost _ _ _).2.1, bumpFallback_parserCalls]
    split
    · rw [(resolveDns_ghost _ _ _).2.1]
      split
      · rw [(setEnvFromDir_ghost _ _ _ _).2.1]
      · rfl
    · split
      · rw [(setEnvFromDir_ghost _ _ _ _).2.1]
      · rfl
  · dsimp only
    split
    · rw [(resolveDns_ghost _ _ _).2.1]
      split
      · rw [(setEnvFromDir_ghost _ _ _ _).2.1]
      · rfl
    · split
      · rw [(setEnvFromDir_ghost _ _ _ _).2.1]
      · rfl

theorem tagAndDns_totalFiles (cfg : Config) (w : World) (env : Option String)
    (st : InvState) (g h : String) :
    (tagAndDns cfg w env st g h).1.totalFiles = st.totalFiles := by
  unfold tagAndDns
  dsimp only
  split
  · rw [(detectEnvironment_ghost _ _ _).2.2.1, bumpFallback_totalFiles]
    split
    · rw [(resolveDns_ghost _ _ _).2.2]
      split
      · rw [(setEnvFromDir_ghost _ _ _ _).2.2.1]
      · rfl
    · split
      · rw [(setEnvFromDir_ghost _ _ _ _).2.2.1]
      · rfl
  · dsimp only
    split
    · rw [(resolveDns_ghost _ _ _).2.2]
      split
      · rw [(setEnvFromDir_ghost _ _ _ _).2.2.1]
      · rfl
    · split
      · rw [(setEnvFromDir_ghost _ _ _ _).2.2.1]
      · rfl

theorem tagAndDns_dnsCalls (cfg : Config) (w : World) (env : Option String)
    (st : InvState) (g h : String) (hdns : cfg.dns_resolution = false) :
    (tagAndDns cfg w env st g h).1.dnsCalls = st.dnsCalls := by
  unfold tagAndDns
  dsimp only
  rw [if_neg (show ¬(h ≠ "" ∧ cfg.dns_resolution = true) from by simp [hdns])]
  split
  · rw [(detectEnvironment_ghost _ _ _).2.2.2.1, bumpFallback_dnsCalls]
    split
    · rw [(setEnvFromDir_ghost _ _ _ _).2.2.2]
    · rfl
  · dsimp only
    split
    · rw [(setEnvFromDir_ghost _ _ _ _).2.2.2]
    · rfl

theorem tagAndDns_fallback_of_some (cfg : Config) (w : World) (env : Option String)
    (st : InvState) (g h : String) (henv : env ≠ none) :
    (tagAndDns cfg w env st g h).1.fallbackRuns = st.fallbackRuns := by
  unfold tagAndDns
  dsimp only
  rw [if_neg (show ¬(h ≠ "" ∧ g ≠ "" ∧ cfg.environment_detection = true ∧ env = none)
        from by simp [henv])]
  split
  · rw [resolveDns_fallback]
    split
    · rw [setEnvFromDir_fallback]
    · rfl
  · split
    · rw [setEnvFromDir_fallback]
    · rfl

theorem setEnvFromDir_log (cfg : Config) (h e : String) (st : InvState) :
    ∀ d ∈ (setEnvironmentFromDirectory cfg h e st).2, d ≠ Diag.dnsUnavailable := by
  unfold setEnvironmentFromDirectory
  split
  · intro d hd
    simp at hd
  · intro d hd
    simp at hd
    rw [hd]
    intro hcon
    cases hcon

theorem resolveDns_log (w : World) (h : String) (st : InvState) :
    ∀ d ∈ (resolveDns w h st).2, d ≠ Diag.dnsUnavailable := by
  unfold resolveDns
  simp only
  split
  · intro d hd; simp at hd
  · intro d hd; simp at hd
  · intro d hd; simp at hd
  · intro d hd
    simp at hd
    rw [hd]
    intro hcon
    cases hcon

theorem tagAndDns_log (cfg : Config) (w : World) (env : Option String)
    (st : InvState) (g h : String) :
    ∀ d ∈ (tagAndDns cfg w env st g h).2, d ≠ Diag.dnsUnavailable := by
  unfold tagAndDns
  dsimp only
  intro d hd
  simp only [List.mem_append] at hd
  rcases hd with (hd | hd) | hd
  · revert hd
    split
    · exact setEnvFromDir_log cfg h _ st d
    · intro hd; simp at hd
  · revert hd
    split
    · exact resolveDns_log w h _ d
    · intro hd; simp at hd
  · revert hd
    split
    · intro hd; simp at hd
    · intro hd; simp at hd

theorem applyVars_ghost (t0 : String) (items : List (List Char)) (st : InvState) :
    (applyVars t0 items st).accesses = st.accesses ∧
    (applyVars t0 items st).parserCalls = st.parserCalls ∧
    (applyVars t0 items st).totalFiles = st.totalFiles ∧
    (applyVars t0 items st).dnsCalls = st.dnsCalls ∧
    (applyVars t0 items st).fallbackRuns = st.fallbackRuns := by
  induction items generalizing st with
  | nil => exact ⟨rfl, rfl, rfl, rfl, rfl⟩
  | cons it rest ih =>
    unfold applyVars
    refine ⟨?_, ?_, ?_, ?_, ?_⟩
    · rw [(ih _).1]; split <;> rfl
    · rw [(ih _).2.1]; split <;> rfl
    · rw [(ih _).2.2.1]; split <;> rfl
    · rw [(ih _).2.2.2.1]; split <;> rfl
    · rw [(ih _).2.2.2.2]; split <;> rfl

/-- Ghost fields and diagnostics of the duplicate-host block (same shape as
the zeta-expanded host-line branch of `processEntry`). -/
theorem dupShape_ghost (st1 : InvState) (group t0 : String) :
    ((if alook t0 (if t0 ∈ (alook group st1.groups).getD [] then st1
            else {st1 with groups := aupd group (fun hs => hs ++ [t0]) st1.groups}).hostvars
          = none then
         ({(if t0 ∈ (alook group st1.groups).getD [] then st1
            else {st1 with groups := aupd group (fun hs => hs ++ [t0]) st1.groups}) with
            hostvars :=
              (if t0 ∈ (alook group st1.groups).getD [] then st1
               else {st1 with groups := aupd group (fun hs => hs ++ [t0]) st1.groups}).hostvars
              ++ [(t0, [])]},
          ([] : List Diag))
       else
         ((if t0 ∈ (alook group st1.groups).getD [] then st1
           else {st1 with groups := aupd group (fun hs => hs ++ [t0]) st1.groups}),
          [Diag.duplicateHost t0])).1).accesses = st1.accesses ∧
    ((if alook t0 (if t0 ∈ (alook group st1.groups).getD [] then st1
            else {st1 with groups := aupd group (fun hs => hs ++ [t0]) st1.groups}).hostvars
          = none then
         ({(if t0 ∈ (alook group st1.groups).getD [] then st1
            else {st1 with groups := aupd group (fun hs => hs ++ [t0]) st1.groups}) with
            hostvars :=
              (if t0 ∈ (alook group st1.groups).getD [] then st1
               else {st1 with groups := aupd group (fun hs => hs ++ [t0]) st1.groups}).hostvars
              ++ [(t0, [])]},
          ([] : List Diag))
       else
         ((if t0 ∈ (alook group st1.groups).getD [] then st1
           else {st1 with groups := aupd group (fun hs => hs ++ [t0]) st1.groups}),
          [Diag.duplicateHost t0])).1).parserCalls = st1.parserCalls ∧
    ((if alook t0 (if t0 ∈ (alook group st1.groups).getD [] then st1
            else {st1 with groups := aupd group (fun hs => hs ++ [t0]) st1.groups}).hostvars
          = none then
         ({(if t0 ∈ (alook group st1.groups).getD [] then st1
            else {st1 with groups := aupd group (fun hs => hs ++ [t0]) st1.groups}) with
            hostvars :=
              (if t0 ∈ (alook group st1.groups).getD [] then st1
               else {st1 with groups := aupd group (fun hs => hs ++ [t0]) st1.groups}).hostvars
              ++ [(t0, [])]},
          ([] : List Diag))
       else
         ((if t0 ∈ (alook group st1.groups).getD [] then st1
           else {st1 with groups := aupd group (fun hs => hs ++ [t0]) st1.groups}),
          [Diag.duplicateHost t0])).1).totalFiles = st1.totalFiles ∧
    ((if alook t0 (if t0 ∈ (alook group st1.groups).getD [] then st1
            else {st1 with groups := aupd group (fun hs => hs ++ [t0]) st1.groups}).hostvars
          = none then
         ({(if t0 ∈ (alook group st1.groups).getD [] then st1
            else {st1 with groups := aupd group (fun hs => hs ++ [t0]) st1.groups}) with
            hostvars :=
              (if t0 ∈ (alook group st1.groups).getD [] then st1
               else {st1 with groups := aupd group (fun hs => hs ++ [t0]) st1.groups}).hostvars
              ++ [(t0, [])]},
          ([] : List Diag))
       else
         ((if t0 ∈ (alook group st1.groups).getD [] then st1
           else {st1 with groups := aupd group (fun hs => hs ++ [t0]) st1.groups}),
          [Diag.duplicateHost t0])).1).dnsCalls = st1.dnsCalls ∧
    ((if alook t0 (if t0 ∈ (alook group st1.groups).getD [] then st1
            else {st1 with groups := aupd group (fun hs => hs ++ [t0]) st1.groups}).hostvars
          = none then
         ({(if t0 ∈ (alook group st1.groups).getD [] then st1
            else {st1 with groups := aupd group (fun hs => hs ++ [t0]) st1.groups}) with
            hostvars :=
              (if t0 ∈ (alook group st1.groups).getD [] then st1
               else {st1 with groups := aupd group (fun hs => hs ++ [t0]) st1.groups}).hostvars
              ++ [(t0, [])]},
          ([] : List Diag))
       else
         ((if t0 ∈ (alook group st1.groups).getD [] then st1
           else {st1 with groups := aupd group (fun hs => hs ++ [t0]) st1.groups}),
          [Diag.duplicateHost t0])).1).fallbackRuns = st1.fallbackRuns ∧
    (∀ d ∈ (if alook t0 (if t0 ∈ (alook group st1.groups).getD [] then st1
            else {st1 with groups := aupd group (fun hs => hs ++ [t0]) st1.groups}).hostvars
          = none then
         ({(if t0 ∈ (alook group st1.groups).getD [] then st1
            else {st1 with groups := aupd group (fun hs => hs ++ [t0]) st1.groups}) with
            hostvars :=
              (if t0 ∈ (alook group st1.groups).getD [] then st1
               else {st1 with groups := aupd group (fun hs => hs ++ [t0]) st1.groups}).hostvars
              ++ [(t0, [])]},
          ([] : List Diag))
       else
         ((if t0 ∈ (alook group st1.groups).getD [] then st1
           else {st1 with groups := aupd group (fun hs => hs ++ [t0]) st1.groups}),
          [Diag.duplicateHost t0])).2, d ≠ Diag.dnsUnavailable) := by
  by_cases hmem : t0 ∈ (alook group st1.groups).getD []
  · rw [if_pos hmem]
    by_cases hdup : alook t0 st1.hostvars = none
    · rw [if_pos hdup]
      exact ⟨rfl, rfl, rfl, rfl, rfl, by intro d hd; simp at hd⟩
    · rw [if_neg hdup]
      refine ⟨rfl, rfl, rfl, rfl, rfl, ?_⟩
      intro d hd
      simp at hd
      rw [hd]
      intro hc
      cases hc
  · rw [if_neg hmem]
    dsimp only
    by_cases hdup : alook t0 st1.hostvars = none
    · rw [if_pos hdup]
      exact ⟨rfl, rfl, rfl, rfl, rfl, by intro d hd; simp at hd⟩
    · rw [if_neg hdup]
      refine ⟨rfl, rfl, rfl, rfl, rfl, ?_⟩
      intro d hd
      simp at hd
      rw [hd]
      intro hc
      cases hc

theorem processEntry_facts {cfg : Config} {w : World} {env : Option String}
    {fname : String} {st : InvState} {group host e : String}
    {st' : InvState} {g' h' : String} {l : List Diag}
    (hok : processEntry cfg w env fname st group host e = .ok ((st', g', h'), l)) :
    (∀ d ∈ l, d ≠ Diag.dnsUnavailable) ∧
    (cfg.dns_resolution = false → st'.dnsCalls = st.dnsCalls) ∧
    (env ≠ none → st'.fallbackRuns = st.fallbackRuns) ∧
    st'.parserCalls = st.parserCalls ∧
    st'.accesses = st.accesses ∧
    st'.totalFiles = st.totalFiles := by
  unfold processEntry at hok
  by_cases c1 : ((stripList e.data).isEmpty = true)
  · rw [if_pos c1] at hok
    simp only [Except.ok.injEq, Prod.mk.injEq] at hok
    obtain ⟨⟨h1, -, -⟩, h2⟩ := hok
    subst h1
    subst h2
    exact ⟨by simp, fun _ => rfl, fun _ => rfl, rfl, rfl, rfl⟩
  · rw [if_neg c1] at hok
    by_cases c2 : ((stripList e.data).head? = some '#')
    · rw [if_pos c2] at hok
      simp only [Except.ok.injEq, Prod.mk.injEq] at hok
      obtain ⟨⟨h1, -, -⟩, h2⟩ := hok
      subst h1
      subst h2
      exact ⟨by simp, fun _ => rfl, fun _ => rfl, rfl, rfl, rfl⟩
    · rw [if_neg c2] at hok
      by_cases c3 : ((containsC '[' (stripList e.data) &&
          containsC ']' (stripList e.data)) = true)
      · rw [if_pos c3] at hok
        by_cases c4 : ((⟨sliceLC (stripList e.data) (idxOf '[' (stripList e.data) + 1)
            (idxOf ']' (stripList e.data))⟩ : String) = "")
        · rw [if_pos c4] at hok
          simp only [Except.ok.injEq, Prod.mk.injEq] at hok
          obtain ⟨⟨h1, -, -⟩, h2⟩ := hok
          subst h1
          subst h2
          refine ⟨?_, fun _ => rfl, fun _ => rfl, rfl, rfl, rfl⟩
          intro d hd
          simp at hd
          rw [hd]
          intro hc
          cases hc
        · rw [if_neg c4] at hok
          by_cases c5 : ((⟨sliceLC (stripList e.data) (idxOf '[' (stripList e.data) + 1)
              (idxOf ']' (stripList e.data))⟩ : String) ∈ st.allChildren)
          · rw [if_pos c5] at hok
            simp only [Except.ok.injEq, Prod.mk.injEq] at hok
            obtain ⟨⟨h1, -, -⟩, h2⟩ := hok
            subst h1
            subst h2
            exact ⟨by simp, fun _ => rfl, fun _ => rfl, rfl, rfl, rfl⟩
          · rw [if_neg c5] at hok
            simp only [Except.ok.injEq, Prod.mk.injEq] at hok
            obtain ⟨⟨h1, -, -⟩, h2⟩ := hok
            subst h2
            rw [← h1]
            exact ⟨by simp, fun _ => rfl, fun _ => rfl, rfl, rfl, rfl⟩
      · rw [if_neg c3] at hok
        cases hsp : splitWS (stripList e.data) with
        | nil =>
          rw [hsp] at hok
          simp only [Except.ok.injEq, Prod.mk.injEq] at hok
          obtain ⟨⟨h1, -, -⟩, h2⟩ := hok
          subst h2
          rw [← h1]
          exact ⟨tagAndDns_log _ _ _ _ _ _,
            fun hd => tagAndDns_dnsCalls _ _ _ _ _ _ hd,
            fun he => tagAndDns_fallback_of_some _ _ _ _ _ _ he,
            tagAndDns_parserCalls _ _ _ _ _ _,
            tagAndDns_accesses _ _ _ _ _ _,
            tagAndDns_totalFiles _ _ _ _ _ _⟩
        | cons t0l rest =>
          rw [hsp] at hok
          dsimp only at hok
          by_cases c6 : (group = "_meta" ∨ group = "all")
          · rw [if_pos c6] at hok
            exact (Except.noConfusion hok)
          · rw [if_neg c6] at hok
            simp only [Except.ok.injEq, Prod.mk.injEq] at hok
            obtain ⟨⟨h1, -, -⟩, h2⟩ := hok
            subst h2
            rw [← h1]
            have hgd := dupShape_ghost
              (if group ≠ "_meta" ∧ group ≠ "all" ∧ alook group st.groups = none then
                 {st with groups := st.groups ++ [(group, [])]}
               else st) group ⟨t0l⟩
            refine ⟨?_, ?_, ?_, ?_, ?_, ?_⟩
            · intro d hd
              simp only [List.mem_append] at hd
              rcases hd with hd | hd
              · exact hgd.2.2.2.2.2 d hd
              · exact tagAndDns_log _ _ _ _ _ _ d hd
            · intro hdns
              rw [tagAndDns_dnsCalls _ _ _ _ _ _ hdns, (applyVars_ghost _ _ _).2.2.2.1,
                hgd.2.2.2.1]
              split <;> rfl
            · intro henv
              rw [tagAndDns_fallback_of_some _ _ _ _ _ _ henv,
                (applyVars_ghost _ _ _).2.2.2.2, hgd.2.2.2.2.1]
              split <;> rfl
            · rw [tagAndDns_parserCalls, (applyVars_ghost _ _ _).2.1, hgd.2.1]
              split <;> rfl
            · rw [tagAndDns_accesses, (applyVars_ghost _ _ _).1, hgd.1]
              split <;> rfl
            · rw [tagAndDns_totalFiles, (applyVars_ghost _ _ _).2.2.1, hgd.2.2.1]
              split <;> rfl

theorem foldEntries_facts {cfg : Config} {w : World} {env : Option String}
    {fname : String} :
    ∀ (entries : List String) (acc : InvState × String × String)
      {acc' : InvState × String × String} {l : List Diag},
    foldEntries cfg w env fname entries acc = .ok (acc', l) →
    (∀ d ∈ l, d ≠ Diag.dnsUnavailable) ∧
    (cfg.dns_resolution = false → acc'.1.dnsCalls = acc.1.dnsCalls) ∧
    (env ≠ none → acc'.1.fallbackRuns = acc.1.fallbackRuns) ∧
    acc'.1.parserCalls = acc.1.parserCalls ∧
    acc'.1.accesses = acc.1.accesses ∧
    acc'.1.totalFiles = acc.1.totalFiles := by
  intro entries
  induction entries with
  | nil =>
    intro acc acc' l hok
    unfold foldEntries at hok
    simp only [Except.ok.injEq, Prod.mk.injEq] at hok
    obtain ⟨h1, h2⟩ := hok
    subst h1
    subst h2
    exact ⟨by simp, fun _ => rfl, fun _ => rfl, rfl, rfl, rfl⟩
  | cons e es ih =>
    intro acc acc' l hok
    unfold foldEntries at hok
    cases hpe : processEntry cfg w env fname acc.1 acc.2.1 acc.2.2 e with
    | error msg => rw [hpe] at hok; cases hok
    | ok pe =>
      obtain ⟨⟨pst, pg, ph⟩, pl⟩ := pe
      rw [hpe] at hok
      dsimp only at hok
      cases hfe : foldEntries cfg w env fname es (pst, pg, ph) with
      | error msg => rw [hfe] at hok; cases hok
      | ok fe =>
        rw [hfe] at hok
        dsimp only at hok
        simp only [Except.ok.injEq, Prod.mk.injEq] at hok
        obtain ⟨h1, h2⟩ := hok
        subst h1
        subst h2
        have hp := processEntry_facts hpe
        have hf := ih (pst, pg, ph) hfe
        refine ⟨?_, ?_, ?_, ?_, ?_, ?_⟩
        · intro d hd
          simp only [List.mem_append] at hd
          rcases hd with hd | hd
          · exact hp.1 d hd
          · exact hf.1 d hd
        · intro hdns
          rw [hf.2.1 hdns, hp.2.1 hdns]
        · intro henv
          rw [hf.2.2.1 henv, hp.2.2.1 henv]
        · rw [hf.2.2.2.1, hp.2.2.2.1]
        · rw [hf.2.2.2.2.1, hp.2.2.2.2.1]
        · rw [hf.2.2.2.2.2, hp.2.2.2.2.2]

theorem processSingleHostFile_facts {cfg : Config} {w : World} {filename : String}
    {env : Option String} {st st' : InvState} {l : List Diag}
    (hok : processSingleHostFile cfg w filename env st = .ok (st', l)) :
    (∀ d ∈ l, d ≠ Diag.dnsUnavailable) ∧
    (cfg.dns_resolution = false → st'.dnsCalls = st.dnsCalls) ∧
    (env ≠ none → st'.fallbackRuns = st.fallbackRuns) ∧
    st'.parserCalls = st.parserCalls ++ [(filename, env)] ∧
    st'.accesses = st.accesses ++ [filename] ∧
    st'.totalFiles = st.totalFiles := by
  unfold processSingleHostFile at hok
  cases hfl : w.fileLines filename with
  | none =>
    rw [hfl] at hok
    dsimp only at hok
    simp only [Except.ok.injEq, Prod.mk.injEq] at hok
    obtain ⟨h1, h2⟩ := hok
    subst h2
    rw [← h1]
    refine ⟨?_, fun _ => rfl, fun _ => rfl, rfl, rfl, rfl⟩
    intro d hd
    simp at hd
    rcases hd with rfl | rfl
    · intro hc; cases hc
    · intro hc; cases hc
  | some entries =>
    rw [hfl] at hok
    dsimp only at hok
    cases hfe : foldEntries cfg w env filename entries
        ({st with parserCalls := st.parserCalls ++ [(filename, env)],
                  accesses := st.accesses ++ [filename]}, "ungrouped", "") with
    | error e => rw [hfe] at hok; cases hok
    | ok fe =>
      rw [hfe] at hok
      dsimp only at hok
      simp only [Except.ok.injEq, Prod.mk.injEq] at hok
      obtain ⟨h1, h2⟩ := hok
      subst h1
      subst h2
      have hf := foldEntries_facts entries _ hfe
      refine ⟨?_, ?_, ?_, ?_, ?_, ?_⟩
      · intro d hd
        simp only [List.mem_cons] at hd
        rcases hd with rfl | hd
        · intro hc; cases hc
        · exact hf.1 d hd
      · intro hdns
        rw [hf.2.1 hdns]
      · intro henv
        rw [hf.2.2.1 henv]
      · rw [hf.2.2.2.1]
      · rw [hf.2.2.2.2.1]
      · rw [hf.2.2.2.2.2]

theorem foldFiles_facts {cfg : Config} {w : World} {d : String} :
    ∀ (files : List String) (st : InvState) {st' : InvState} {l : List Diag},
    foldFiles cfg w d files st = .ok (st', l) →
    (∀ x ∈ l, x ≠ Diag.dnsUnavailable) ∧
    (cfg.dns_resolution = false → st'.dnsCalls = st.dnsCalls) ∧
    st'.fallbackRuns = st.fallbackRuns ∧
    st'.parserCalls = st.parserCalls ++ files.map (fun f => (f, some d)) := by
  intro files
  induction files with
  | nil =>
    intro st st' l hok
    unfold foldFiles at hok
    simp only [Except.ok.injEq, Prod.mk.injEq] at hok
    obtain ⟨h1, h2⟩ := hok
    subst h1
    subst h2
    exact ⟨by simp, fun _ => rfl, rfl, by simp⟩
  | cons f fs ih =>
    intro st st' l hok
    unfold foldFiles at hok
    cases hpf : processSingleHostFile cfg w f (some d) st with
    | error e => rw [hpf] at hok; cases hok
    | ok pr =>
      obtain ⟨st1, l1⟩ := pr
      rw [hpf] at hok
      dsimp only at hok
      cases hff : foldFiles cfg w d fs st1 with
      | error e => rw [hff] at hok; cases hok
      | ok fr =>
        obtain ⟨st2, l2⟩ := fr
        rw [hff] at hok
        dsimp only at hok
        simp only [Except.ok.injEq, Prod.mk.injEq] at hok
        obtain ⟨h1, h2⟩ := hok
        subst h1
        subst h2
        have hp := processSingleHostFile_facts hpf
        have hf := ih st1 hff
        refine ⟨?_, ?_, ?_, ?_⟩
        · intro x hx
          simp only [List.mem_append] at hx
          rcases hx with hx | hx
          · exact hp.1 x hx
          · exact hf.1 x hx
        · intro hdns
          rw [hf.2.1 hdns, hp.2.1 hdns]
        · rw [hf.2.2.1, hp.2.2.1 (by simp)]
        · rw [hf.2.2.2, hp.2.2.2.1]
          simp

theorem findHostsFiles_ghost (cfg : Config) (w : World) (p : String) (s : InvState) :
    (findHostsFiles cfg w p s).2.parserCalls = s.parserCalls ∧
    (findHostsFiles cfg w p s).2.dnsCalls = s.dnsCalls ∧
    (findHostsFiles cfg w p s).2.fallbackRuns = s.fallbackRuns ∧
    (findHostsFiles cfg w p s).2.totalFiles = s.totalFiles :=
  ⟨rfl, rfl, rfl, rfl⟩

theorem envDirInner_facts {cfg : Config} {w : World} {d p : String} (X : InvState)
    {st' : InvState} {l : List Diag}
    (hok : (if (findHostsFiles cfg w p X).1 = [] then
              Except.ok ((findHostsFiles cfg w p X).2,
                [Diag.processingDir d, Diag.noFilesInDir p])
            else
              match foldFiles cfg w d (findHostsFiles cfg w p X).1
                  {(findHostsFiles cfg w p X).2 with
                    totalFiles := (findHostsFiles cfg w p X).2.totalFiles +
                      (findHostsFiles cfg w p X).1.length} with
              | .error e => .error e
              | .ok (st2, l2) =>
                .ok (st2, Diag.processingDir d ::
                          Diag.foundFiles d (findHostsFiles cfg w p X).1.length :: l2)) =
          .ok (st', l)) :
    (∀ x ∈ l, x ≠ Diag.dnsUnavailable) ∧
    (cfg.dns_resolution = false → st'.dnsCalls = X.dnsCalls) ∧
    st'.fallbackRuns = X.fallbackRuns ∧
    (∀ q ∈ st'.parserCalls, q ∈ X.parserCalls ∨ q.2 = some d) := by
  by_cases hf0 : (findHostsFiles cfg w p X).1 = []
  · rw [if_pos hf0] at hok
    simp only [Except.ok.injEq, Prod.mk.injEq] at hok
    obtain ⟨h1, h2⟩ := hok
    subst h2
    rw [← h1]
    refine ⟨?_, ?_, ?_, ?_⟩
    · intro x hx
      simp at hx
      rcases hx with rfl | rfl
      · intro hc; cases hc
      · intro hc; cases hc
    · intro hdns
      exact (findHostsFiles_ghost cfg w p X).2.1
    · exact (findHostsFiles_ghost cfg w p X).2.2.1
    · intro q hq
      rw [(findHostsFiles_ghost cfg w p X).1] at hq
      exact Or.inl hq
  · rw [if_neg hf0] at hok
    cases hff : foldFiles cfg w d (findHostsFiles cfg w p X).1
        {(findHostsFiles cfg w p X).2 with
          totalFiles := (findHostsFiles cfg w p X).2.totalFiles +
            (findHostsFiles cfg w p X).1.length} with
    | error e => rw [hff] at hok; cases hok
    | ok fr =>
      obtain ⟨st2, l2⟩ := fr
      rw [hff] at hok
      dsimp only at hok
      simp only [Except.ok.injEq, Prod.mk.injEq] at hok
      obtain ⟨h1, h2⟩ := hok
      subst h1
      subst h2
      have hf := foldFiles_facts _ _ hff
      refine ⟨?_, ?_, ?_, ?_⟩
      · intro x hx
        simp only [List.mem_cons] at hx
        rcases hx with rfl | rfl | hx
        · intro hc; cases hc
        · intro hc; cases hc
        · exact hf.1 x hx
      · intro hdns
        rw [hf.2.1 hdns]
        exact (findHostsFiles_ghost cfg w p X).2.1
      · rw [hf.2.2.1]
        exact (findHostsFiles_ghost cfg w p X).2.2.1
      · intro q hq
        rw [hf.2.2.2] at hq
        simp only [List.mem_append] at hq
        rcases hq with hq | hq
        · rw [(findHostsFiles_ghost cfg w p X).1] at hq
          exact Or.inl hq
        · simp only [List.mem_map] at hq
          obtain ⟨f, -, rfl⟩ := hq
          exact Or.inr rfl

theorem processOneEnvDir_facts {cfg : Config} {w : World} {st : InvState} {d : String}
    {st' : InvState} {l : List Diag}
    (hok : processOneEnvDir cfg w st d = .ok (st', l)) :
    (∀ x ∈ l, x ≠ Diag.dnsUnavailable) ∧
    (cfg.dns_resolution = false → st'.dnsCalls = st.dnsCalls) ∧
    st'.fallbackRuns = st.fallbackRuns ∧
    (∀ q ∈ st'.parserCalls, q ∈ st.parserCalls ∨ q.2 = some d) := by
  unfold processOneEnvDir at hok
  by_cases hu : dirUnsafe d = true
  · rw [if_pos hu] at hok
    simp only [Except.ok.injEq, Prod.mk.injEq] at hok
    obtain ⟨h1, h2⟩ := hok
    subst h1
    subst h2
    refine ⟨?_, fun _ => rfl, rfl, fun q hq => Or.inl hq⟩
    intro x hx
    simp at hx
    rw [hx]
    intro hc
    cases hc
  · rw [if_neg hu] at hok
    by_cases he : w.pathExists (pathJoin cfg.hosts_directory d) = false
    · rw [if_pos he] at hok
      simp only [Except.ok.injEq, Prod.mk.injEq] at hok
      obtain ⟨h1, h2⟩ := hok
      subst h2
      rw [← h1]
      refine ⟨?_, fun _ => rfl, rfl, fun q hq => Or.inl hq⟩
      intro x hx
      simp at hx
      rw [hx]
      intro hc
      cases hc
    · rw [if_neg he] at hok
      by_cases hd2 : w.pathIsDir (pathJoin cfg.hosts_directory d) = false
      · rw [if_pos hd2] at hok
        simp only [Except.ok.injEq, Prod.mk.injEq] at hok
        obtain ⟨h1, h2⟩ := hok
        subst h2
        rw [← h1]
        refine ⟨?_, fun _ => rfl, rfl, fun q hq => Or.inl hq⟩
        intro x hx
        simp at hx
        rw [hx]
        intro hc
        cases hc
      · rw [if_neg hd2] at hok
        dsimp only at hok
        exact envDirInner_facts
          {st with accesses := st.accesses ++ [pathJoin cfg.hosts_directory d] ++
            [pathJoin cfg.hosts_directory d]} hok

theorem foldDirs_facts {cfg : Config} {w : World} :
    ∀ (dirs : List String) (st : InvState) {st' : InvState} {l : List Diag},
    foldDirs cfg w dirs st = .ok (st', l) →
    (∀ x ∈ l, x ≠ Diag.dnsUnavailable) ∧
    (cfg.dns_resolution = false → st'.dnsCalls = st.dnsCalls) ∧
    st'.fallbackRuns = st.fallbackRuns ∧
    (∀ q ∈ st'.parserCalls, q ∈ st.parserCalls ∨ ∃ d, q.2 = some d ∧ d ∈ dirs) := by
  intro dirs
  induction dirs with
  | nil =>
    intro st st' l hok
    unfold foldDirs at hok
    simp only [Except.ok.injEq, Prod.mk.injEq] at hok
    obtain ⟨h1, h2⟩ := hok
    subst h1
    subst h2
    exact ⟨by simp, fun _ => rfl, rfl, fun q hq => Or.inl hq⟩
  | cons d ds ih =>
    intro st st' l hok
    unfold foldDirs at hok
    cases hpd : processOneEnvDir cfg w st d with
    | error e => rw [hpd] at hok; cases hok
    | ok pr =>
      obtain ⟨st1, l1⟩ := pr
      rw [hpd] at hok
      dsimp only at hok
      cases hfd : foldDirs cfg w ds st1 with
      | error e => rw [hfd] at hok; cases hok
      | ok fr =>
        obtain ⟨st2, l2⟩ := fr
        rw [hfd] at hok
        dsimp only at hok
        simp only [Except.ok.injEq, Prod.mk.injEq] at hok
        obtain ⟨h1, h2⟩ := hok
        subst h1
        subst h2
        have hp := processOneEnvDir_facts hpd
        have hf := ih st1 hfd
        refine ⟨?_, ?_, ?_, ?_⟩
        · intro x hx
          simp only [List.mem_append] at hx
          rcases hx with hx | hx
          · exact hp.1 x hx
          · exact hf.1 x hx
        · intro hdns
          rw [hf.2.1 hdns, hp.2.1 hdns]
        · rw [hf.2.2.1, hp.2.2.1]
        · intro q hq
          rcases hf.2.2.2 q hq with hq1 | ⟨d2, hd2, hmem⟩
          · rcases hp.2.2.2 q hq1 with hq2 | hq2
            · exact Or.inl hq2
            · exact Or.inr ⟨d, hq2, by simp⟩
          · exact Or.inr ⟨d2, hd2, by simp [hmem]⟩

theorem finalizeWalk_state (st : InvState) : (finalizeWalk st).1 = st := by
  unfold finalizeWalk
  split <;> rfl

theorem finalizeWalk_log (st : InvState) :
    ∀ x ∈ (finalizeWalk st).2, x ≠ Diag.dnsUnavailable := by
  unfold finalizeWalk
  split <;> (intro x hx; simp at hx; rw [hx]; intro hc; cases hc)

theorem processEnvironmentDirectories_facts {cfg : Config} {w : World} {st : InvState}
    {st' : InvState} {l : List Diag}
    (hok : processEnvironmentDirectories cfg w st = .ok (st', l)) :
    (∀ x ∈ l, x ≠ Diag.dnsUnavailable) ∧
    (cfg.dns_resolution = false → st'.dnsCalls = st.dnsCalls) ∧
    st'.fallbackRuns = st.fallbackRuns ∧
    (∀ q ∈ st'.parserCalls, q ∈ st.parserCalls ∨
      ∃ d, q.2 = some d ∧ d ∈ cfg.environment_dirs) := by
  unfold processEnvironmentDirectories at hok
  cases hfd : foldDirs cfg w cfg.environment_dirs st with
  | error e => rw [hfd] at hok; cases hok
  | ok fr =>
    obtain ⟨st1, l1⟩ := fr
    rw [hfd] at hok
    dsimp only at hok
    simp only [Except.ok.injEq, Prod.mk.injEq] at hok
    obtain ⟨h1, h2⟩ := hok
    subst h2
    have hf := foldDirs_facts cfg.environment_dirs st hfd
    rw [← h1, finalizeWalk_state]
    refine ⟨?_, hf.2.1, hf.2.2.1, hf.2.2.2⟩
    intro x hx
    simp only [List.mem_append] at hx
    rcases hx with hx | hx
    · exact hf.1 x hx
    · exact finalizeWalk_log st1 x hx

/-! ## C7: path-traversal rejection -/

/-- The final inventory state of a walk result, discarding diagnostics. -/
def exceptFst (r : Except String (InvState × List Diag)) : Except String InvState :=
  match r with
  | .error e => .error e
  | .ok p => .ok p.1

theorem processOneEnvDir_skips {cfg : Config} {w : World} (st : InvState) {d : String}
    (hd : dirUnsafe d = true) :
    processOneEnvDir cfg w st d = .ok (st, [Diag.unsafeEnvDir d]) := by
  unfold processOneEnvDir
  rw [if_pos hd]

theorem foldDirs_cons (cfg : Config) (w : World) (d : String) (ds : List String)
    (st : InvState) :
    foldDirs cfg w (d :: ds) st =
      match processOneEnvDir cfg w st d with
      | .error e => .error e
      | .ok (st', l1) =>
        match foldDirs cfg w ds st' with
        | .error e => .error e
        | .ok (st'', l2) => .ok (st'', l1 ++ l2) := rfl

theorem foldDirs_filter_state {cfg : Config} {w : World} :
    ∀ (dirs : List String) (st : InvState),
    exceptFst (foldDirs cfg w dirs st) =
      exceptFst (foldDirs cfg w (dirs.filter (fun x => !dirUnsafe x)) st) := by
  intro dirs
  induction dirs with
  | nil => intro st; rfl
  | cons d ds ih =>
    intro st
    by_cases hu : dirUnsafe d = true
    · have hfe : (d :: ds).filter (fun x => !dirUnsafe x) =
          ds.filter (fun x => !dirUnsafe x) := by
        simp [List.filter_cons, hu]
      rw [hfe, foldDirs_cons, processOneEnvDir_skips st hu]
      dsimp only
      have ihh := ih st
      cases hfd : foldDirs cfg w ds st with
      | error e =>
        rw [hfd] at ihh
        exact ihh
      | ok fr =>
        obtain ⟨st2, l2⟩ := fr
        rw [hfd] at ihh
        dsimp only
        rw [← ihh]
        rfl
      -- both sides are `.ok st2` up to reduction
    · have hu2 : dirUnsafe d = false := by
        revert hu; cases dirUnsafe d <;> simp
      have hfe : (d :: ds).filter (fun x => !dirUnsafe x) =
          d :: ds.filter (fun x => !dirUnsafe x) := by
        simp [List.filter_cons, hu2]
      rw [hfe, foldDirs_cons, foldDirs_cons]
      cases hpd : processOneEnvDir cfg w st d with
      | error e => rfl
      | ok pr =>
        obtain ⟨st1, l1⟩ := pr
        dsimp only
        have ihh := ih st1
        cases hfd : foldDirs cfg w ds st1 with
        | error e =>
          rw [hfd] at ihh
          cases hfd2 : foldDirs cfg w (ds.filter (fun x => !dirUnsafe x)) st1 with
          | error e2 =>
            rw [hfd2] at ihh
            dsimp only [exceptFst] at ihh ⊢
            exact ihh
          | ok fr2 =>
            rw [hfd2] at ihh
            dsimp only [exceptFst] at ihh
            cases ihh
        | ok fr =>
          obtain ⟨st2, l2⟩ := fr
          rw [hfd] at ihh
          cases hfd2 : foldDirs cfg w (ds.filter (fun x => !dirUnsafe x)) st1 with
          | error e2 =>
            rw [hfd2] at ihh
            dsimp only [exceptFst] at ihh
            cases ihh
          | ok fr2 =>
            obtain ⟨st3, l3⟩ := fr2
            rw [hfd2] at ihh
            dsimp only [exceptFst] at ihh ⊢
            simp only [Except.ok.injEq] at ihh ⊢
            exact ihh

theorem foldDirs_warns {cfg : Config} {w : World} :
    ∀ (dirs : List String) (st : InvState) {st' : InvState} {l : List Diag},
    foldDirs cfg w dirs st = .ok (st', l) →
    ∀ d ∈ dirs, dirUnsafe d = true → Diag.unsafeEnvDir d ∈ l := by
  intro dirs
  induction dirs with
  | nil => intro st st' l _ d hd; simp at hd
  | cons d0 ds ih =>
    intro st st' l hok d hd hud
    rw [foldDirs_cons] at hok
    cases hpd : processOneEnvDir cfg w st d0 with
    | error e => rw [hpd] at hok; cases hok
    | ok pr =>
      obtain ⟨st1, l1⟩ := pr
      rw [hpd] at hok
      dsimp only at hok
      cases hfd : foldDirs cfg w ds st1 with
      | error e => rw [hfd] at hok; cases hok
      | ok fr =>
        obtain ⟨st2, l2⟩ := fr
        rw [hfd] at hok
        dsimp only at hok
        simp only [Except.ok.injEq, Prod.mk.injEq] at hok
        obtain ⟨h1, h2⟩ := hok
        subst h2
        simp only [List.mem_cons] at hd
        rcases hd with rfl | hd
        · have heq := (processOneEnvDir_skips st hud).symm.trans hpd
          simp only [Except.ok.injEq, Prod.mk.injEq] at heq
          rw [← heq.2]
          simp
        · exact List.mem_append.mpr (Or.inr (ih st1 hfd d hd hud))

/-- **C7**: an environment-directory name containing `..` or starting with `/`
is skipped with a warning before any filesystem access under it: the loop body
returns the incoming state unchanged (in particular the `accesses` trace of
filesystem touches gains nothing for that entry), the final inventory state of
the directory loop equals that of the loop over only the safe names, and on a
successful loop every unsafe configured name has its warning in the log. -/
theorem path_traversal_skip (cfg : Config) (w : World) (st : InvState)
    (dirs : List String) :
    (∀ d, dirUnsafe d = true →
      processOneEnvDir cfg w st d = .ok (st, [Diag.unsafeEnvDir d])) ∧
    exceptFst (foldDirs cfg w dirs st) =
      exceptFst (foldDirs cfg w (dirs.filter (fun x => !dirUnsafe x)) st) ∧
    (∀ st' l, foldDirs cfg w dirs st = .ok (st', l) →
      ∀ d ∈ dirs, dirUnsafe d = true → Diag.unsafeEnvDir d ∈ l) :=
  ⟨fun _ hd => processOneEnvDir_skips st hd,
   foldDirs_filter_state dirs st,
   fun _ _ hok d hd hud => foldDirs_warns dirs st hok d hd hud⟩

/-- C7 witness: the name `../../etc` is skipped with a warning and leaves the
state untouched, and the two-directory walk equals the walk over `prod` alone. -/
theorem path_traversal_skip_witness :
    processOneEnvDir cfgPlain wPlain initState "../../etc" =
      .ok (initState, [Diag.unsafeEnvDir "../../etc"]) ∧
    exceptFst (foldDirs cfgPlain wPlain ["../../etc", "prod"] initState) =
      exceptFst (foldDirs cfgPlain wPlain ["prod"] initState) ∧
    Diag.unsafeEnvDir "../../etc" ∈
      [Diag.unsafeEnvDir "../../etc", Diag.envDirMissing "r/prod"] := by
  have h := path_traversal_skip cfgPlain wPlain initState ["../../etc", "prod"]
  refine ⟨h.1 "../../etc" (by decide), ?_, ?_⟩
  · have hfe : (["../../etc", "prod"].filter (fun x => !dirUnsafe x)) = ["prod"] := by
      decide
    rw [← hfe]
    exact h.2.1
  · exact h.2.2 {initState with accesses := ["r/prod"]}
      [Diag.unsafeEnvDir "../../etc", Diag.envDirMissing "r/prod"]
      (by rfl) "../../etc" (by decide) (by decide)

/-! ## C10: the walker's environment hint -/

/-- **C10** (amended): every parser invocation recorded during a directory walk
carries a non-null environment hint naming one of the configured environment
directories, and the group-name fallback — whose guard requires a null hint —
never executes during the walk; the hint may nevertheless be the empty string,
when `""` is itself a configured directory name. -/
theorem walker_hint_nonnull (cfg : Config) (w : World) (st st' : InvState)
    (l : List Diag) (hok : processEnvironmentDirectories cfg w st = .ok (st', l)) :
    (∀ q ∈ st'.parserCalls, q ∈ st.parserCalls ∨
      ∃ d, q.2 = some d ∧ d ∈ cfg.environment_dirs) ∧
    st'.fallbackRuns = st.fallbackRuns := by
  have h := processEnvironmentDirectories_facts hok
  exact ⟨h.2.2.2, h.2.2.1⟩

def cfgC10 : Config := {cfgPlain with environment_dirs := [""]}

/-- A world in which the root `r` holds (via the empty directory name, joined
to `r/`) a single empty hosts file. -/
def wC10 : World :=
  { pathExists := fun p => p = "r" || p = "r/",
    pathIsDir := fun p => p = "r" || p = "r/",
    pathIsFile := fun p => p = "r/hosts.ini",
    globFiles := fun p => if p = "r/hosts.ini" then ["r/hosts.ini"] else [],
    fileLines := fun p => if p = "r/hosts.ini" then some [] else none,
    hasDns := false, dnsAnswer := fun _ => DnsRes.noRecord }

/-- The final state of the walk of `wC10` under `cfgC10`. -/
def stC10 : InvState :=
  { hostvars := [], groups := [], allChildren := ["ungrouped"], totalFiles := 1,
    accesses := ["r/", "r/", "r/hosts.ini", "r/hosts.ini", "r/hosts.ini"],
    parserCalls := [("r/hosts.ini", some "")], fallbackRuns := 0, dnsCalls := [] }

/-- C10 witness: in the concrete walk of `wC10` the only parser invocation
carries the hint `some ""` (a configured directory name) and the fallback
counter stays at its initial value. -/
theorem walker_hint_nonnull_witness :
    (∀ q ∈ stC10.parserCalls, q ∈ initState.parserCalls ∨
      ∃ d, q.2 = some d ∧ d ∈ cfgC10.environment_dirs) ∧
    stC10.fallbackRuns = initState.fallbackRuns :=
  walker_hint_nonnull cfgC10 wC10 initState stC10
    [Diag.processingDir "", Diag.foundFiles "" 1,
     Diag.processingFile "r/hosts.ini", Diag.processedTotal 1] (by rfl)

/-- C10 counterexample: the hint passed to the parser is never null, but it can
be the empty string — with `""` among the configured environment directories the
walker records the parser invocation `("r/hosts.ini", some "")`, refuting the
claimed non-emptiness of the hint. -/
theorem walker_hint_nonnull_counterexample :
    (processEnvironmentDirectories cfgC10 wC10 initState).toOption.map
        (fun r => r.1.parserCalls) = some [("r/hosts.ini", some "")] ∧
    "" ∈ cfgC10.environment_dirs := by
  exact ⟨by rfl, by decide⟩

/-! ## C9: DNS availability and the enricher contract -/

/-- Prepend the run-level missing-dependency warning to a successful walk
result. -/
def withDnsWarning (r : Except String (InvState × List Diag)) :
    Except String (InvState × List Diag) :=
  match r with
  | .error e => .error e
  | .ok p => .ok (p.1, Diag.dnsUnavailable :: p.2)

theorem effectiveConfig_unavailable {cfg : Config} {w : World}
    (hreq : cfg.dns_resolution = true) (hnd : w.hasDns = false) :
    effectiveConfig cfg w = {cfg with dns_resolution := false} := by
  unfold effectiveConfig
  rw [if_pos ⟨hreq, hnd⟩]

theorem effectiveConfig_off {cfg : Config} (w : World) :
    effectiveConfig {cfg with dns_resolution := false} w =
      {cfg with dns_resolution := false} := by
  unfold effectiveConfig
  dsimp only
  rw [if_neg (show ¬(false = true ∧ w.hasDns = false) from by simp)]

/-- **C9**: requesting DNS resolution while the library is unavailable makes the
run equal to the DNS-off run with exactly one run-level warning prepended; in
particular the enricher is never invoked (`dnsCalls` stays empty), so no host
receives a `DNSName` variable from it.  When the library is present the
enricher is a total function that records only the first CNAME answer, is
silent on a no-record response, and turns any other failure into a single
verbose diagnostic. -/
theorem dns_unavailable_behavior (cfg : Config) (w : World)
    (hreq : cfg.dns_resolution = true) (hnd : w.hasDns = false) :
    parse cfg w = withDnsWarning (parse {cfg with dns_resolution := false} w) ∧
    (∀ st' l, parse cfg w = .ok (st', l) →
      ∃ l', l = Diag.dnsUnavailable :: l' ∧ Diag.dnsUnavailable ∉ l' ∧
        st'.dnsCalls = []) ∧
    (∀ (w2 : World) (h : String) (st : InvState),
      (w2.dnsAnswer h = DnsRes.noRecord →
        resolveDns w2 h st = ({st with dnsCalls := st.dnsCalls ++ [h]}, [])) ∧
      (∀ c cs, w2.dnsAnswer h = DnsRes.success (c :: cs) →
        resolveDns w2 h st =
          ({st with dnsCalls := st.dnsCalls ++ [h],
                    hostvars := aupd h (setKV "DNSName" c) st.hostvars}, [])) ∧
      (w2.dnsAnswer h = DnsRes.otherError →
        resolveDns w2 h st =
          ({st with dnsCalls := st.dnsCalls ++ [h]}, [Diag.dnsFailed h]))) := by
  refine ⟨?_, ?_, ?_⟩
  · unfold parse
    dsimp only
    by_cases h0 : cfg.hosts_directory = ""
    · simp only [if_pos h0]
      rfl
    · simp only [if_neg h0]
      by_cases h1 : w.pathExists cfg.hosts_directory = false
      · simp only [if_pos h1]
        rfl
      · simp only [if_neg h1]
        by_cases h2 : w.pathIsDir cfg.hosts_directory = false
        · simp only [if_pos h2]
          rfl
        · simp only [if_neg h2]
          rw [effectiveConfig_unavailable hreq hnd, effectiveConfig_off w]
          cases hw : processEnvironmentDirectories {cfg with dns_resolution := false}
              w initState with
          | error e => rfl
          | ok pr =>
            obtain ⟨st1, l1⟩ := pr
            dsimp only
            rw [if_pos ⟨hreq, hnd⟩]
            rw [if_neg (show ¬(false = true ∧ w.hasDns = false) from by simp)]
            rfl
  · intro st' l hok
    unfold parse at hok
    by_cases h0 : cfg.hosts_directory = ""
    · rw [if_pos h0] at hok; cases hok
    · rw [if_neg h0] at hok
      by_cases h1 : w.pathExists cfg.hosts_directory = false
      · rw [if_pos h1] at hok; cases hok
      · rw [if_neg h1] at hok
        by_cases h2 : w.pathIsDir cfg.hosts_directory = false
        · rw [if_pos h2] at hok; cases hok
        · rw [if_neg h2] at hok
          rw [effectiveConfig_unavailable hreq hnd] at hok
          cases hw : processEnvironmentDirectories {cfg with dns_resolution := false}
              w initState with
          | error e => rw [hw] at hok; cases hok
          | ok pr =>
            obtain ⟨st1, l1⟩ := pr
            rw [hw] at hok
            dsimp only at hok
            rw [if_pos ⟨hreq, hnd⟩] at hok
            simp only [Except.ok.injEq, Prod.mk.injEq] at hok
            obtain ⟨hst, hl⟩ := hok
            subst hst
            subst hl
            have hf := processEnvironmentDirectories_facts hw
            refine ⟨l1, rfl, ?_, ?_⟩
            · intro hmem
              exact hf.1 _ hmem rfl
            · exact hf.2.1 rfl
  · intro w2 h st
    refine ⟨?_, ?_, ?_⟩
    · intro hans
      unfold resolveDns
      rw [hans]
    · intro c cs hans
      unfold resolveDns
      rw [hans]
    · intro hans
      unfold resolveDns
      rw [hans]

def cfgC9 : Config := {cfgPlain with dns_resolution := true}

/-- A world with the root present but no DNS library. -/
def wC9 : World :=
  {wPlain with pathExists := fun p => p = "r", pathIsDir := fun p => p = "r"}

/-- A world with DNS available: a CNAME chain for `a`, no record for `b`,
any other name fails. -/
def wC9d : World :=
  { wPlain with
    hasDns := true,
    dnsAnswer := fun h =>
      if h = "a" then DnsRes.success ["c1", "c2"]
      else if h = "b" then DnsRes.noRecord
      else DnsRes.otherError }

/-- The final state of the run of `wC9` under `cfgC9`. -/
def stC9 : InvState :=
  { hostvars := [], groups := [], allChildren := ["ungrouped"], totalFiles := 0,
    accesses := ["r/prod"], parserCalls := [], fallbackRuns := 0, dnsCalls := [] }

/-- C9 witness: a concrete run with DNS requested but unavailable equals the
DNS-off run plus the single warning, and the enricher behaves as stated on a
CNAME answer, a no-record answer and a failing answer. -/
theorem dns_unavailable_behavior_witness :
    parse cfgC9 wC9 = withDnsWarning (parse {cfgC9 with dns_resolution := false} wC9) ∧
    (∃ l', [Diag.dnsUnavailable, Diag.envDirMissing "r/prod", Diag.noFilesAtAll] =
        Diag.dnsUnavailable :: l' ∧ Diag.dnsUnavailable ∉ l' ∧ stC9.dnsCalls = []) ∧
    resolveDns wC9d "b" initState =
      ({initState with dnsCalls := initState.dnsCalls ++ ["b"]}, []) ∧
    resolveDns wC9d "a" initState =
      ({initState with dnsCalls := initState.dnsCalls ++ ["a"],
                       hostvars := aupd "a" (setKV "DNSName" "c1") initState.hostvars},
       []) ∧
    resolveDns wC9d "x" initState =
      ({initState with dnsCalls := initState.dnsCalls ++ ["x"]},
       [Diag.dnsFailed "x"]) := by
  have h := dns_unavailable_behavior cfgC9 wC9 (by rfl) (by rfl)
  refine ⟨h.1,
    h.2.1 stC9 [Diag.dnsUnavailable, Diag.envDirMissing "r/prod", Diag.noFilesAtAll]
      (by rfl),
    (h.2.2 wC9d "b" initState).1 (by rfl),
    (h.2.2 wC9d "a" initState).2.1 "c1" ["c2"] (by rfl),
    (h.2.2 wC9d "x" initState).2.2 (by rfl)⟩

/-! ## C6: fatal versus recoverable conditions -/

/-- **C6**: with a configured root name, the run fails if and only if the root
is absent, is not a directory, or the directory walk itself raises; a missing
environment directory, a non-directory environment path, an unreadable file, an
empty group name and a zero total file count each yield only diagnostics on a
successful result and never interrupt the run. -/
theorem fatal_error_conditions (cfg : Config) (w : World)
    (hroot : cfg.hosts_directory ≠ "") :
    ((∃ e, parse cfg w = .error e) ↔
      (w.pathExists cfg.hosts_directory = false ∨
       w.pathIsDir cfg.hosts_directory = false ∨
       ∃ e, processEnvironmentDirectories (effectiveConfig cfg w) w initState =
         .error e)) ∧
    (∀ (st : InvState) (f : String) (env : Option String),
      w.fileLines f = none →
      processSingleHostFile cfg w f env st =
        .ok ({st with parserCalls := st.parserCalls ++ [(f, env)],
                      accesses := st.accesses ++ [f]},
             [Diag.processingFile f, Diag.couldNotRead f])) ∧
    (∀ (st : InvState) (d : String), dirUnsafe d = false →
      w.pathExists (pathJoin cfg.hosts_directory d) = false →
      processOneEnvDir cfg w st d =
        .ok ({st with accesses := st.accesses ++ [pathJoin cfg.hosts_directory d]},
             [Diag.envDirMissing (pathJoin cfg.hosts_directory d)])) ∧
    (∀ (st : InvState) (d : String), dirUnsafe d = false →
      w.pathExists (pathJoin cfg.hosts_directory d) = true →
      w.pathIsDir (pathJoin cfg.hosts_directory d) = false →
      processOneEnvDir cfg w st d =
        .ok ({st with accesses := st.accesses ++ [pathJoin cfg.hosts_directory d] ++
               [pathJoin cfg.hosts_directory d]},
             [Diag.envPathNotDir (pathJoin cfg.hosts_directory d)])) ∧
    (∀ (st : InvState) (env : Option String) (fname group host : String),
      processEntry cfg w env fname st group host "[]" =
        .ok ((st, "", host), [Diag.emptyGroupName fname])) ∧
    (∀ (st st' : InvState) (l : List Diag),
      processEnvironmentDirectories cfg w st = .ok (st', l) →
      st'.totalFiles = 0 → Diag.noFilesAtAll ∈ l) := by
  refine ⟨⟨?_, ?_⟩, ?_, ?_, ?_, ?_, ?_⟩
  · rintro ⟨e, he⟩
    unfold parse at he
    rw [if_neg hroot] at he
    by_cases h1 : w.pathExists cfg.hosts_directory = false
    · exact Or.inl h1
    · rw [if_neg h1] at he
      by_cases h2 : w.pathIsDir cfg.hosts_directory = false
      · exact Or.inr (Or.inl h2)
      · rw [if_neg h2] at he
        cases hw : processEnvironmentDirectories (effectiveConfig cfg w) w initState with
        | error e2 => exact Or.inr (Or.inr ⟨e2, rfl⟩)
        | ok pr =>
          obtain ⟨st1, l1⟩ := pr
          rw [hw] at he
          dsimp only at he
          cases he
  · intro hcase
    unfold parse
    rw [if_neg hroot]
    by_cases h1 : w.pathExists cfg.hosts_directory = false
    · rw [if_pos h1]
      exact ⟨_, rfl⟩
    · rw [if_neg h1]
      by_cases h2 : w.pathIsDir cfg.hosts_directory = false
      · rw [if_pos h2]
        exact ⟨_, rfl⟩
      · rw [if_neg h2]
        rcases hcase with hc | hc | ⟨e, he⟩
        · exact absurd hc h1
        · exact absurd hc h2
        · rw [he]
          exact ⟨_, rfl⟩
  · intro st f env hnone
    unfold processSingleHostFile
    rw [hnone]
  · intro st d hsafe hmiss
    unfold processOneEnvDir
    rw [if_neg (show ¬dirUnsafe d = true from by simp [hsafe])]
    dsimp only
    rw [if_pos hmiss]
  · intro st d hsafe hex hnd
    unfold processOneEnvDir
    rw [if_neg (show ¬dirUnsafe d = true from by simp [hsafe])]
    dsimp only
    rw [if_neg (show ¬w.pathExists (pathJoin cfg.hosts_directory d) = false from by
      simp [hex])]
    rw [if_pos hnd]
  · intro st env fname group host
    rfl
  · intro st st' l hok h0
    unfold processEnvironmentDirectories at hok
    cases hfd : foldDirs cfg w cfg.environment_dirs st with
    | error e => rw [hfd] at hok; cases hok
    | ok pr =>
      obtain ⟨st1, l1⟩ := pr
      rw [hfd] at hok
      dsimp only at hok
      simp only [Except.ok.injEq, Prod.mk.injEq] at hok
      obtain ⟨h1, h2⟩ := hok
      subst h2
      have hst : st' = st1 := by rw [← h1, finalizeWalk_state]
      have h0b : st1.totalFiles = 0 := by rw [← hst]; exact h0
      have hfw : finalizeWalk st1 = (st1, [Diag.noFilesAtAll]) := by
        unfold finalizeWalk
        rw [if_pos h0b]
      rw [hfw]
      simp

/-- C6 witness: a missing root makes the run fail; an unreadable file and a
missing environment directory are mere diagnostics. -/
theorem fatal_error_conditions_witness :
    (∃ e, parse cfgPlain wPlain = .error e) ∧
    processSingleHostFile cfgPlain wPlain "f" none initState =
      .ok ({initState with parserCalls := initState.parserCalls ++ [("f", none)],
                           accesses := initState.accesses ++ ["f"]},
           [Diag.processingFile "f", Diag.couldNotRead "f"]) ∧
    processOneEnvDir cfgPlain wPlain initState "prod" =
      .ok ({initState with accesses := initState.accesses ++ ["r/prod"]},
           [Diag.envDirMissing "r/prod"]) ∧
    processEntry cfgPlain wPlain none "f" initState "grp" "h" "[]" =
      .ok ((initState, "", "h"), [Diag.emptyGroupName "f"]) := by
  have h := fatal_error_conditions cfgPlain wPlain (by decide)
  exact ⟨h.1.mpr (Or.inl (by rfl)),
         h.2.1 initState "f" none (by rfl),
         h.2.2.1 initState "prod" (by decide) (by rfl),
         h.2.2.2.2.1 initState none "f" "grp" "h"⟩

end GitHosts
